import Mathlib

/-!
Shallow embedding of the JSONH reader (jsonh_rs) in Lean 4, with theorems
checking the natural-language specification against the code.

Sources embedded: src/jsonh_rs/src/jsonh_reader.rs, jsonh_number_parser.rs,
jsonh_reader_options.rs, jsonh_token.rs, jsonh_version.rs.

Modelling conventions:
- The peekable character iterator becomes a `List Char`; reading pops the head.
- Machine integers: `depth: i32` is an `Int` (its values stay tiny), counters
  are `Nat`; `f64` arithmetic is modelled by exact rationals `ℚ`, which agrees
  with the code wherever the double computation is exact (all concrete inputs
  used below involve only small integers and short decimal fractions).
- Fallible code returns `Except String`; `.unwrap()`-style panics are modelled
  by the error value "internal panic" (reachable only where the Rust would
  panic).
- The lazy `LocalIter` token streams become eager lists of emitted tokens plus
  an optional terminal error; every consumer in the source stops at the first
  error, and the code that would run after the token completing a root element
  performs no further reads, so the eager final state coincides with the lazy
  one at every point a consumer observes.
- Loops that consume at least one source character per iteration get an
  internal fuel of `source.length + 1`, which always suffices; the mutually
  recursive element readers take external fuel (`none` = fuel exhausted).
- Each emitted token carries two ghost fields used only by theorems: whether
  the emission site is in `read_braceless_object`, and the number of source
  characters remaining at the emission.
-/

namespace Jsonh

/-- Token kinds. Modelled from the spec: the module `json_token_type` is
declared in lib.rs but its source file is not in the repository snapshot; §3 of
the spec fixes the kinds: StartObject, EndObject, StartArray, EndArray,
PropertyName, String, Number, Null, True, False, Comment. -/
inductive JsonTokenType where
  | StartObject
  | EndObject
  | StartArray
  | EndArray
  | PropertyName
  | String
  | Number
  | Null
  | True
  | False
  | Comment
deriving DecidableEq, Repr

/-- A single JSONH token with a `JsonTokenType` (jsonh_token.rs). -/
structure JsonhToken where
  json_type : JsonTokenType
  value : List Char
deriving DecidableEq, Repr

/-- `JsonhToken::new`. -/
def JsonhToken.new (t : JsonTokenType) (v : List Char) : JsonhToken := ⟨t, v⟩

/-- `JsonhToken::new_empty`. -/
def JsonhToken.new_empty (t : JsonTokenType) : JsonhToken := ⟨t, []⟩

/-- The major versions of the JSONH specification (jsonh_version.rs). -/
inductive JsonhVersion where
  | Latest
  | V1
  | V2
deriving DecidableEq, Repr

/-- The `#[repr(u32)]` discriminants: Latest = 0, V1 = 1, V2 = 2. -/
def JsonhVersion.discr : JsonhVersion → Nat
  | .Latest => 0
  | .V1 => 1
  | .V2 => 2

/-- Options for a `JsonhReader` (jsonh_reader_options.rs). -/
structure JsonhReaderOptions where
  version : JsonhVersion
  parse_single_element : Bool
  max_depth : Int
  incomplete_inputs : Bool
deriving DecidableEq, Repr

/-- `JsonhReaderOptions::new()`: version Latest, parse_single_element false,
max_depth 64, incomplete_inputs false. -/
def JsonhReaderOptions.new : JsonhReaderOptions :=
  ⟨.Latest, false, 64, false⟩

/-- `JsonhReaderOptions::supports_version`: `Latest` resolves to V2 on both
sides, then the u32 discriminants are compared. -/
def JsonhReaderOptions.supports_version (o : JsonhReaderOptions)
    (minimum_version : JsonhVersion) : Bool :=
  let ov := if o.version = .Latest then JsonhVersion.V2 else o.version
  let gv := if minimum_version = .Latest then JsonhVersion.V2 else minimum_version
  decide (gv.discr ≤ ov.discr)

/-- `RESERVED_CHARS_V1` from jsonh_reader.rs. -/
def RESERVED_CHARS_V1 : List Char :=
  ['\\', ',', ':', '[', ']', '\x7b', '\x7d', '/', '#', '"', '\x27']

/-- `RESERVED_CHARS_V2` from jsonh_reader.rs. -/
def RESERVED_CHARS_V2 : List Char :=
  ['\\', ',', ':', '[', ']', '\x7b', '\x7d', '/', '#', '"', '\x27', '@']

/-- `NEWLINE_CHARS` from jsonh_reader.rs: LF, CR, U+2028, U+2029. -/
def NEWLINE_CHARS : List Char :=
  ['\n', '\r', Char.ofNat 0x2028, Char.ofNat 0x2029]

/-- `WHITESPACE_CHARS` from jsonh_reader.rs, in source order. As a set of
characters this list coincides with Rust's `char::is_whitespace` (the Unicode
White_Space property), which `read_whitespace` uses. -/
def WHITESPACE_CHARS : List Char :=
  [Char.ofNat 0x0020, Char.ofNat 0x00A0, Char.ofNat 0x1680, Char.ofNat 0x2000,
   Char.ofNat 0x2001, Char.ofNat 0x2002, Char.ofNat 0x2003, Char.ofNat 0x2004,
   Char.ofNat 0x2005, Char.ofNat 0x2006, Char.ofNat 0x2007, Char.ofNat 0x2008,
   Char.ofNat 0x2009, Char.ofNat 0x200A, Char.ofNat 0x202F, Char.ofNat 0x205F,
   Char.ofNat 0x3000, Char.ofNat 0x2028, Char.ofNat 0x2029, Char.ofNat 0x0009,
   Char.ofNat 0x000A, Char.ofNat 0x000B, Char.ofNat 0x000C, Char.ofNat 0x000D,
   Char.ofNat 0x0085]


/-- `char::to_ascii_lowercase`. -/
def to_ascii_lowercase (c : Char) : Char :=
  if 65 ≤ c.toNat ∧ c.toNat ≤ 90 then Char.ofNat (c.toNat + 32) else c

/-- `char::from_u32`: `some` exactly on Unicode scalar values. -/
def char_from_u32 (n : Nat) : Option Char :=
  if _h : n.isValidChar then some (Char.ofNat n) else none

/-- The hex-digit conversion inside `read_hex_sequence`. -/
def hex_digit_to_int (c : Char) : Option Nat :=
  if 65 ≤ c.toNat ∧ c.toNat ≤ 70 then some (c.toNat - 65 + 10)
  else if 97 ≤ c.toNat ∧ c.toNat ≤ 102 then some (c.toNat - 97 + 10)
  else if 48 ≤ c.toNat ∧ c.toNat ≤ 57 then some (c.toNat - 48)
  else none

/-- `'0'..='9'` (used by `read_primitive_element` and the f64 grammar). -/
def is_ascii_digit (c : Char) : Bool :=
  decide (48 ≤ c.toNat ∧ c.toNat ≤ 57)

/-- The reader state (jsonh_reader.rs lines 11-20). `source` is the remaining
character stream; `char_counter` and `depth` are the fields of the struct. -/
structure JsonhReader where
  source : List Char
  options : JsonhReaderOptions
  char_counter : Nat
  depth : Int
deriving DecidableEq, Repr

/-- `JsonhReader::from_str`: fresh reader with `char_counter = 0`,
`depth = 0`. -/
def JsonhReader.from_str (source : List Char) (options : JsonhReaderOptions) :
    JsonhReader :=
  ⟨source, options, 0, 0⟩

/-- `JsonhReader::peek` (line 1390-1392). -/
def JsonhReader.peek (r : JsonhReader) : Option Char := r.source.head?

/-- `JsonhReader::read` (lines 1393-1395): `self.source.next()`. Note that the
source does not modify `char_counter` here (nor anywhere else). -/
def JsonhReader.read (r : JsonhReader) : Option Char × JsonhReader :=
  match r.source with
  | [] => (none, r)
  | c :: rest => (some c, { r with source := rest })

/-- `reserved_chars()`: V2 readers also reserve `@`. -/
def reserved_chars (o : JsonhReaderOptions) : List Char :=
  if o.supports_version .V2 then RESERVED_CHARS_V2 else RESERVED_CHARS_V1

/-- List-level `peek`. The scanner helpers below work directly on the
remaining source list; the reader's other fields are untouched by them in the
source (they only go through `peek`/`read`). -/
def peekL (s : List Char) : Option Char := s.head?

/-- List-level `read_one` (line 1396-1402). -/
def readOneL (c : Char) (s : List Char) : Bool × List Char :=
  match s with
  | [] => (false, [])
  | a :: rest => if a = c then (true, rest) else (false, a :: rest)

/-- List-level `read_any` (lines 1403-1413). -/
def readAnyL (options : List Char) (s : List Char) : Option Char × List Char :=
  match s with
  | [] => (none, [])
  | a :: rest => if options.contains a then (some a, rest) else (none, a :: rest)

/-- `is_utf16_high_surrogate` (lines 1423-1425). -/
def is_utf16_high_surrogate (code_point : Nat) : Bool :=
  decide (0xD800 ≤ code_point ∧ code_point ≤ 0xDBFF)

/-- `is_utf16_low_surrogate` (lines 1426-1428). -/
def is_utf16_low_surrogate (code_point : Nat) : Bool :=
  decide (0xDC00 ≤ code_point ∧ code_point ≤ 0xDFFF)

/-- `utf16_surrogates_to_code_point` (lines 1414-1422). The `u32` arithmetic
cannot overflow (the combined value is below 2^21), so plain `Nat` arithmetic
is exact. -/
def utf16_surrogates_to_code_point (high_surrogate low_surrogate : Nat) :
    Except String Nat :=
  if ¬ is_utf16_high_surrogate high_surrogate then
    .error ("High surrogate out of range")
  else if ¬ is_utf16_low_surrogate low_surrogate then
    .error ("Low surrogate out of range")
  else
    .ok (0x10000 + (((high_surrogate - 0xD800) <<< 10) |||
      (low_surrogate - 0xDC00)))

/-- `read_hex_sequence::<LENGTH>` (lines 1254-1283), with the accumulator made
explicit. `value < 16^LENGTH ≤ 2^32` so `u32` arithmetic is exact. -/
def read_hex_sequence (len : Nat) (value : Nat) (s : List Char) :
    Except String Nat × List Char :=
  match len with
  | 0 => (.ok value, s)
  | n + 1 =>
    match s with
    | [] =>
      (.error ("Incorrect number of hexadecimal digits in unicode escape sequence"), [])
    | c :: rest =>
      match hex_digit_to_int c with
      | some d => read_hex_sequence n (value * 16 + d) rest
      | none =>
        (.error ("Incorrect number of hexadecimal digits in unicode escape sequence"), rest)

/-- `read_hex_escape_sequence` with `high_surrogate = Some hi` (lines
1359-1375): the low-surrogate half, which combines and never recurses. -/
def read_hex_escape_sequence_pending (len : Nat) (hi : Nat) (s : List Char) :
    Except String (Option Char) × List Char :=
  match read_hex_sequence len 0 s with
  | (.error e, s') => (.error e, s')
  | (.ok code_point, s') =>
    match utf16_surrogates_to_code_point hi code_point with
    | .error e => (.error e, s')
    | .ok combined =>
      match char_from_u32 combined with
      | some combined_char => (.ok (some combined_char), s')
      | none => (.error ("Invalid hex escape sequence"), s')

/-- `read_escape_sequence` with `high_surrogate = Some hi` (lines 1284-1292 and
the `u`/`x`/`U` arms): any escape other than `u`/`x`/`U` is an error. -/
def read_escape_sequence_pending (hi : Nat) (s : List Char) :
    Except String (Option Char) × List Char :=
  match s with
  | [] => (.error ("Expected escape sequence, got end of input"), [])
  | c :: rest =>
    if c = 'u' then read_hex_escape_sequence_pending 4 hi rest
    else if c = 'x' then read_hex_escape_sequence_pending 2 hi rest
    else if c = 'U' then read_hex_escape_sequence_pending 8 hi rest
    else (.error ("Expected low surrogate after high surrogate"), rest)

/-- `read_hex_escape_sequence` with `high_surrogate = None` (lines 1359-1389):
a value in the high-surrogate range followed by `\` chains into the pending
reader; otherwise the value stands alone. -/
def read_hex_escape_sequence (len : Nat) (s : List Char) :
    Except String (Option Char) × List Char :=
  match read_hex_sequence len 0 s with
  | (.error e, s') => (.error e, s')
  | (.ok code_point, s') =>
    if is_utf16_high_surrogate code_point then
      match readOneL '\\' s' with
      | (true, s'') => read_escape_sequence_pending code_point s''
      | (false, s'') =>
        match char_from_u32 code_point with
        | some code_point_char => (.ok (some code_point_char), s'')
        | none => (.error ("Invalid hex escape sequence"), s'')
    else
      match char_from_u32 code_point with
      | some code_point_char => (.ok (some code_point_char), s')
      | none => (.error ("Invalid hex escape sequence"), s')

/-- `read_escape_sequence` with `high_surrogate = None` (lines 1284-1358). -/
def read_escape_sequence (s : List Char) :
    Except String (Option Char) × List Char :=
  match s with
  | [] => (.error ("Expected escape sequence, got end of input"), [])
  | c :: rest =>
    if c = '\\' then (.ok (some '\\'), rest)
    else if c = 'b' then (.ok (some (Char.ofNat 8)), rest)
    else if c = 'f' then (.ok (some (Char.ofNat 12)), rest)
    else if c = 'n' then (.ok (some '\n'), rest)
    else if c = 'r' then (.ok (some '\r'), rest)
    else if c = 't' then (.ok (some '\t'), rest)
    else if c = 'v' then (.ok (some (Char.ofNat 11)), rest)
    else if c = '0' then (.ok (some (Char.ofNat 0)), rest)
    else if c = 'a' then (.ok (some (Char.ofNat 7)), rest)
    else if c = 'e' then (.ok (some (Char.ofNat 27)), rest)
    else if c = 'u' then read_hex_escape_sequence 4 rest
    else if c = 'x' then read_hex_escape_sequence 2 rest
    else if c = 'U' then read_hex_escape_sequence 8 rest
    else if NEWLINE_CHARS.contains c then
      if c = '\r' then (.ok none, (readOneL '\n' rest).2)
      else (.ok none, rest)
    else (.ok (some c), rest)

/-! ## JsonhNumberParser (jsonh_number_parser.rs)

The `f64` values are modelled exactly, as unreduced fractions of an `Int`
numerator over a `Nat` denominator (`F64`, denoting the real `num / den`).
Every arithmetic step of the source (Horner sums, fraction columns, the final
multiply) is mirrored on these fractions; this coincides with the `f64`
computation whenever no rounding or overflow occurs, which holds for every
concrete lexeme appearing in the theorems (all of them small integers). -/

/-- Exact model of an `f64` value: the rational `num / den` (den positive on
every value the parser produces). Kept unreduced so that all operations are
plain `Int`/`Nat` arithmetic. -/
structure F64 where
  num : Int
  den : Nat
deriving DecidableEq, Repr

/-- Embed a natural number. -/
def F64.ofNat (n : Nat) : F64 := ⟨n, 1⟩

/-- Embed an integer. -/
def F64.ofInt (n : Int) : F64 := ⟨n, 1⟩

/-- Exact `f64` addition. -/
def F64.add (a b : F64) : F64 :=
  ⟨a.num * b.den + b.num * a.den, a.den * b.den⟩

/-- Exact `f64` multiplication. -/
def F64.mul (a b : F64) : F64 := ⟨a.num * b.num, a.den * b.den⟩

/-- Exact `f64` division. -/
def F64.div (a b : F64) : F64 :=
  if b.num < 0 then ⟨-(a.num * b.den), a.den * b.num.natAbs⟩
  else ⟨a.num * b.den, a.den * b.num.natAbs⟩

/-- `10^k` for a natural `k`. -/
def F64.powTen (k : Nat) : F64 := ⟨((10 : Nat) ^ k : Nat), 1⟩

/-- `10^k` for an integer `k`. -/
def F64.powTenInt (k : Int) : F64 :=
  if 0 ≤ k then ⟨((10 : Nat) ^ k.toNat : Nat), 1⟩
  else ⟨1, (10 : Nat) ^ (-k).toNat⟩

/-- The decimal digit alphabet `"0123456789"`. -/
def dec_digits : List Char := ['0','1','2','3','4','5','6','7','8','9']

/-- The hexadecimal digit alphabet `"0123456789abcdef"`. -/
def hex_digits : List Char :=
  dec_digits ++ ['a', 'b', 'c', 'd', 'e', 'f']

/-- The binary digit alphabet `"01"`. -/
def bin_digits : List Char := ['0','1']

/-- The octal digit alphabet `"01234567"`. -/
def oct_digits : List Char := ['0','1','2','3','4','5','6','7']

/-- Value of a string of ASCII decimal digits. -/
def nat_of_digits (ds : List Char) : Nat :=
  ds.foldl (fun a c => a * 10 + (c.toNat - 48)) 0

/-- Second half of the `str::parse::<f64>()` grammar model: the optional
exponent part, given the mantissa already computed. -/
def rust_parse_f64_exp_digits (mant : F64) (es : Int) (r2 : List Char) :
    Option F64 :=
  let ds3 := r2.takeWhile is_ascii_digit
  if ds3 = [] ∨ r2.dropWhile is_ascii_digit ≠ [] then none
  else some (mant.mul (F64.powTenInt (es * (nat_of_digits ds3 : Int))))

/-- The optional exponent of the `str::parse::<f64>()` grammar. -/
def rust_parse_f64_exp (mant : F64) (r : List Char) : Option F64 :=
  match r with
  | [] => some mant
  | e :: r1 =>
    if e = 'e' ∨ e = 'E' then
      match r1 with
      | '-' :: rr => rust_parse_f64_exp_digits mant (-1) rr
      | '+' :: rr => rust_parse_f64_exp_digits mant 1 rr
      | r1 => rust_parse_f64_exp_digits mant 1 r1
    else none

/-- Model of Rust's `str::parse::<f64>()` on the decimal grammar
`[+-]? (Digits [. Digits*]? | . Digits+) ([eE] [+-]? Digits+)?`, producing the
exact rational value. The special forms `inf`/`infinity`/`NaN` have no exact
rational counterpart and are omitted; no lexeme considered by any theorem
below contains them, and no lexeme below rounds (all are small integers or
short fractions). -/
def rust_parse_f64_unsigned (sg : F64) (s : List Char) : Option F64 :=
  let ds1 := s.takeWhile is_ascii_digit
  let r1 := s.dropWhile is_ascii_digit
  match r1 with
  | '.' :: r2 =>
    let ds2 := r2.takeWhile is_ascii_digit
    let r3 := r2.dropWhile is_ascii_digit
    if ds1 = [] ∧ ds2 = [] then none
    else
      rust_parse_f64_exp
        (sg.mul ((F64.ofNat (nat_of_digits ds1)).add
          ((F64.ofNat (nat_of_digits ds2)).div (F64.powTen ds2.length)))) r3
  | _ =>
    if ds1 = [] then none
    else rust_parse_f64_exp (sg.mul (F64.ofNat (nat_of_digits ds1))) r1

/-- Full `str::parse::<f64>()` grammar model: strip the sign, then the
significand and exponent. -/
def rust_parse_f64 (s : List Char) : Option F64 :=
  match s with
  | '-' :: r => rust_parse_f64_unsigned (F64.ofInt (-1)) r
  | '+' :: r => rust_parse_f64_unsigned (F64.ofInt 1) r
  | s => rust_parse_f64_unsigned (F64.ofInt 1) s

/-- `str::find`: index of the first character satisfying the predicate (all
strings searched this way in the source are ASCII, so byte and character
indices coincide). -/
def find_first_index (p : Char → Bool) : List Char → Option Nat
  | [] => none
  | c :: rest =>
    if p c then some 0 else (find_first_index p rest).map (· + 1)

/-- The Horner loop of `parse_whole_number` (lines 173-186). -/
def whole_number_horner (base_digits : List Char) : List Char → F64 →
    Except String F64
  | [], acc => .ok acc
  | c :: rest, acc =>
    match find_first_index (fun b => b = to_ascii_lowercase c) base_digits with
    | some d =>
      whole_number_horner base_digits rest
        ((acc.mul (F64.ofNat base_digits.length)).add (F64.ofNat d))
    | none => .error ("Invalid digit")

/-- The Horner pass plus sign application of `parse_whole_number`. -/
def parse_whole_number_horner (digits : List Char) (base_digits : List Char)
    (sign : Int) : Except String F64 :=
  match whole_number_horner base_digits digits (F64.ofNat 0) with
  | .error e => .error e
  | .ok integer =>
    .ok (if sign ≠ 1 then integer.mul (F64.ofInt sign) else integer)

/-- `parse_whole_number` (lines 152-193). -/
def parse_whole_number (digits : List Char) (base_digits : List Char) :
    Except String F64 :=
  if base_digits = dec_digits then
    match rust_parse_f64 digits with
    | some q => .ok q
    | none => .error ("Error parsing number from string")
  else
    match digits with
    | '-' :: r => parse_whole_number_horner r base_digits (-1)
    | '+' :: r => parse_whole_number_horner r base_digits 1
    | digits => parse_whole_number_horner digits base_digits 1

/-- The reverse-order fraction-column loop of `parse_fractional_number`
(lines 134-147): the digits are consumed from the last to the first, each step
computing `(fraction + digit) / base`. -/
def fraction_columns (base_digits : List Char) : List Char →
    Except String F64
  | [] => .ok (F64.ofNat 0)
  | c :: rest =>
    match fraction_columns base_digits rest with
    | .error e => .error e
    | .ok f =>
      match find_first_index (fun b => b = to_ascii_lowercase c) base_digits with
      | some d =>
        .ok ((f.add (F64.ofNat d)).div (F64.ofNat base_digits.length))
      | none => .error ("Invalid digit")

/-- `parse_fractional_number` (lines 107-151). -/
def parse_fractional_number (digits : List Char) (base_digits : List Char) :
    Except String F64 :=
  if base_digits = dec_digits then
    match rust_parse_f64 digits with
    | some q => .ok q
    | none => .error ("Error parsing number from string")
  else
    match find_first_index (fun c => c = '.') digits with
    | none => parse_whole_number digits base_digits
    | some dot_index =>
      let whole_part := digits.take dot_index
      let fraction_part := digits.drop (dot_index + 1)
      match parse_whole_number whole_part base_digits with
      | .error e => .error e
      | .ok whole =>
        match fraction_columns base_digits fraction_part with
        | .error e => .error e
        | .ok fraction => .ok (whole.add fraction)

/-- The exponent-position scan for a base containing `e` (lines 67-79): the
first `e`/`E` immediately followed by `+` or `-`. -/
def hex_exponent_scan : List Char → Nat → Option Nat
  | [], _ => none
  | c :: rest, i =>
    if (c = 'e' ∨ c = 'E') ∧
        (rest.head? = some '+' ∨ rest.head? = some '-') then some i
    else hex_exponent_scan rest (i + 1)

/-- The exponent-position choice of `parse_fractional_number_with_exponent`
(lines 64-83): scan for a sign-followed `e`/`E` when `e` is itself a digit of
the base, otherwise `str::find` (the first `e`/`E`). -/
def find_exponent_index (digits : List Char) (base_digits : List Char) :
    Option Nat :=
  if base_digits.contains 'e' then hex_exponent_scan digits 0
  else find_first_index (fun c => decide (c = 'e' ∨ c = 'E')) digits

/-- Model of `(10 as f64).powf(exponent)`: exact when the exponent denotes an
integer (every theorem below only meets integer exponents, on which the f64
power is also exact); a fractional exponent would denote an irrational real
with no rational counterpart, so an arbitrary placeholder is returned. -/
def pow10 (x : F64) : F64 :=
  if x.num % (x.den : Int) = 0 ∧ x.den ≠ 0 then F64.powTenInt (x.num / x.den)
  else F64.ofNat 0

/-- `parse_fractional_number_with_exponent` (lines 62-106). -/
def parse_fractional_number_with_exponent (digits : List Char)
    (base_digits : List Char) : Except String F64 :=
  match find_exponent_index digits base_digits with
  | none => parse_fractional_number digits base_digits
  | some exponent_index =>
    let mantissa_part := digits.take exponent_index
    let exponent_part := digits.drop (exponent_index + 1)
    match parse_fractional_number mantissa_part base_digits with
    | .error e => .error e
    | .ok mantissa =>
      match parse_fractional_number exponent_part base_digits with
      | .error e => .error e
      | .ok exponent => .ok (mantissa.mul (pow10 exponent))

/-- `JsonhNumberParser::parse` (lines 15-60): strip underscores, strip a sign,
recognize a lowercase base prefix, parse, apply the sign. -/
def JsonhNumberParser.parse_based (digits : List Char) (sign : Int) :
    Except String F64 :=
  let p : List Char × List Char :=
    match digits with
    | '0' :: 'x' :: rest => (hex_digits, rest)
    | '0' :: 'b' :: rest => (bin_digits, rest)
    | '0' :: 'o' :: rest => (oct_digits, rest)
    | digits => (dec_digits, digits)
  match p with
  | (base_digits, digits) =>
    match parse_fractional_number_with_exponent digits base_digits with
    | .error e => .error e
    | .ok number =>
      .ok (if sign ≠ 1 then number.mul (F64.ofInt sign) else number)

/-- `JsonhNumberParser::parse` (lines 15-60): strip underscores, strip a sign,
recognize a lowercase base prefix (`starts_with` on `0x`/`0b`/`0o`), parse,
apply the sign. -/
def JsonhNumberParser.parse (jsonh_number : List Char) : Except String F64 :=
  match jsonh_number.filter (fun c => c ≠ '_') with
  | '-' :: r => JsonhNumberParser.parse_based r (-1)
  | '+' :: r => JsonhNumberParser.parse_based r 1
  | cleaned => JsonhNumberParser.parse_based cleaned 1

/-! ## Tokens emitted by the scanners

`Emitted` wraps a token with two ghost fields used only by theorems: the
emission site (whether it is one of the two container-token emissions inside
`read_braceless_object`) and the number of source characters remaining at the
moment of emission. Neither field feeds back into the computation. -/

/-- An emitted token together with ghost observation data. -/
structure Emitted where
  tok : JsonhToken
  from_braceless : Bool
  remaining : Nat
deriving DecidableEq, Repr

/-- Result of a token-emitting scanner on a bare source list: emitted tokens,
an optional terminal error, and the remaining source. -/
structure ScanOut where
  toks : List Emitted
  err : Option String
  src : List Char
deriving DecidableEq, Repr

/-- `read_whitespace` (lines 1237-1253). Rust tests `char::is_whitespace`,
whose character set equals `WHITESPACE_CHARS`. -/
def read_whitespace : List Char → List Char
  | [] => []
  | c :: rest =>
    if WHITESPACE_CHARS.contains c then read_whitespace rest else c :: rest

/-- Consume a run of `=` characters, returning its length (the
`while self.read_one('=')` loops in `read_comment`). -/
def count_eq : List Char → Nat × List Char
  | '=' :: rest =>
    let p := count_eq rest
    (p.1 + 1, p.2)
  | s => (0, s)

/-- Consume at most `k` characters `=`, returning the number consumed (the
`while end_nest_counter < start_nest_counter && self.read_one('=')` loop). -/
def count_eq_up_to (k : Nat) (s : List Char) : Nat × List Char :=
  match k, s with
  | 0, s => (0, s)
  | k + 1, '=' :: rest =>
    let p := count_eq_up_to k rest
    (p.1 + 1, p.2)
  | _ + 1, s => (0, s)

/-- The comment-body loop of `read_comment` (lines 1186-1235). -/
def read_comment_loop (o : JsonhReaderOptions) (block_comment : Bool)
    (start_nest_counter : Nat) :
    Nat → List Char → List Char → Except String JsonhToken × List Char
  | 0, _, s => (.error ("internal fuel"), s)
  | fuel + 1, comment_builder, s =>
    match s with
    | [] =>
      if block_comment then
        (.error ("Expected end of block comment, got end of input"), [])
      else (.ok (JsonhToken.new .Comment comment_builder), [])
    | next :: rest =>
      if block_comment then
        if next = '*' then
          if o.supports_version .V2 then
            match count_eq_up_to start_nest_counter rest with
            | (m, s1) =>
              if m < start_nest_counter ∨ peekL s1 ≠ some '/' then
                read_comment_loop o block_comment start_nest_counter fuel
                  (comment_builder ++ '*' :: List.replicate m '=') s1
              else
                (.ok (JsonhToken.new .Comment comment_builder),
                  (readOneL '/' s1).2)
          else
            match readOneL '/' rest with
            | (true, s1) => (.ok (JsonhToken.new .Comment comment_builder), s1)
            | (false, s1) =>
              read_comment_loop o block_comment start_nest_counter fuel
                (comment_builder ++ ['*']) s1
        else
          read_comment_loop o block_comment start_nest_counter fuel
            (comment_builder ++ [next]) rest
      else
        if NEWLINE_CHARS.contains next then
          (.ok (JsonhToken.new .Comment comment_builder), rest)
        else
          read_comment_loop o block_comment start_nest_counter fuel
            (comment_builder ++ [next]) rest

/-- `read_comment` (lines 1154-1236). -/
def read_comment (o : JsonhReaderOptions) (s : List Char) :
    Except String JsonhToken × List Char :=
  match readOneL '#' s with
  | (true, s1) => read_comment_loop o false 0 (s1.length + 1) [] s1
  | (false, _) =>
    match readOneL '/' s with
    | (false, _) => (.error ("Unexpected character"), s)
    | (true, s1) =>
      match readOneL '/' s1 with
      | (true, s2) => read_comment_loop o false 0 (s2.length + 1) [] s2
      | (false, _) =>
        match readOneL '*' s1 with
        | (true, s2) => read_comment_loop o true 0 (s2.length + 1) [] s2
        | (false, _) =>
          if o.supports_version .V2 ∧ peekL s1 = some '=' then
            match count_eq s1 with
            | (k, s2) =>
              match readOneL '*' s2 with
              | (true, s3) =>
                read_comment_loop o true k (s3.length + 1) [] s3
              | (false, s3) =>
                (.error ("Expected `*` after start of nesting block comment"), s3)
          else (.error ("Unexpected `/`"), s1)

/-- The loop of `read_comments_and_whitespace` (lines 1132-1153). -/
def read_comments_and_whitespace_loop (o : JsonhReaderOptions) :
    Nat → List Emitted → List Char → ScanOut
  | 0, acc, s => ⟨acc, some ("internal fuel"), s⟩
  | fuel + 1, acc, s =>
    let s1 := read_whitespace s
    if peekL s1 = some '#' ∨ peekL s1 = some '/' then
      match read_comment o s1 with
      | (.error e, s2) => ⟨acc, some e, s2⟩
      | (.ok tok, s2) =>
        read_comments_and_whitespace_loop o fuel
          (acc ++ [⟨tok, false, s2.length⟩]) s2
    else ⟨acc, none, s1⟩

/-- `read_comments_and_whitespace`. -/
def read_comments_and_whitespace (o : JsonhReaderOptions) (s : List Char) :
    ScanOut :=
  read_comments_and_whitespace_loop o (s.length + 1) [] s

/-- The collection loop of `read_quoteless_string` (lines 852-886), with its
`is_named_literal_possible` flag returned alongside the builder. -/
def read_quoteless_string_loop (o : JsonhReaderOptions) (is_verbatim : Bool) :
    Nat → List Char → Bool → List Char →
    Except String (List Char × Bool) × List Char
  | 0, _, _, s => (.error ("internal fuel"), s)
  | fuel + 1, string_builder, lit, s =>
    match peekL s with
    | none => (.ok (string_builder, lit), s)
    | some next =>
      if next = '\\' then
        let s1 := s.tail
        if is_verbatim then
          read_quoteless_string_loop o is_verbatim fuel
            (string_builder ++ [next]) false s1
        else
          match read_escape_sequence s1 with
          | (.ok (some c), s2) =>
            read_quoteless_string_loop o is_verbatim fuel
              (string_builder ++ [c]) false s2
          | (.ok none, s2) =>
            read_quoteless_string_loop o is_verbatim fuel string_builder false s2
          | (.error e, s2) => (.error e, s2)
      else if (reserved_chars o).contains next then (.ok (string_builder, lit), s)
      else if NEWLINE_CHARS.contains next then (.ok (string_builder, lit), s)
      else
        read_quoteless_string_loop o is_verbatim fuel
          (string_builder ++ [next]) lit s.tail

/-- `String::trim_matches(WHITESPACE_CHARS)`. -/
def trim_whitespace (l : List Char) : List Char :=
  ((l.dropWhile (fun c => WHITESPACE_CHARS.contains c)).reverse.dropWhile
    (fun c => WHITESPACE_CHARS.contains c)).reverse

/-- `read_quoteless_string` (lines 846-911). -/
def read_quoteless_string (o : JsonhReaderOptions) (initial_chars : List Char)
    (is_verbatim : Bool) (s : List Char) :
    Except String JsonhToken × List Char :=
  match read_quoteless_string_loop o is_verbatim (s.length + 1) initial_chars
      (!is_verbatim) s with
  | (.error e, s1) => (.error e, s1)
  | (.ok (string_builder, lit), s1) =>
    if string_builder = [] then (.error ("Empty quoteless string"), s1)
    else
      let sb := trim_whitespace string_builder
      if lit ∧ sb = ['n', 'u', 'l', 'l'] then
        (.ok (JsonhToken.new .Null ['n', 'u', 'l', 'l']), s1)
      else if lit ∧ sb = ['t', 'r', 'u', 'e'] then
        (.ok (JsonhToken.new .True ['t', 'r', 'u', 'e']), s1)
      else if lit ∧ sb = ['f', 'a', 'l', 's', 'e'] then
        (.ok (JsonhToken.new .False ['f', 'a', 'l', 's', 'e']), s1)
      else (.ok (JsonhToken.new .String sb), s1)

/-- The loop of `detect_quoteless_string` (lines 912-940), fused with the final
peek check. -/
def detect_quoteless_string_loop (o : JsonhReaderOptions) :
    Nat → List Char → List Char → Bool × List Char × List Char
  | 0, buf, s => (false, buf, s)
  | fuel + 1, whitespace_builder, s =>
    match peekL s with
    | none => (false, whitespace_builder, s)
    | some next =>
      if NEWLINE_CHARS.contains next then (false, whitespace_builder, s)
      else if WHITESPACE_CHARS.contains next then
        detect_quoteless_string_loop o fuel (whitespace_builder ++ [next]) s.tail
      else
        (decide (next = '\\') || !((reserved_chars o).contains next),
          whitespace_builder, s)

/-- `detect_quoteless_string`: returns (found, whitespace buffer, rest). -/
def detect_quoteless_string (o : JsonhReaderOptions) (s : List Char) :
    Bool × List Char × List Char :=
  detect_quoteless_string_loop o (s.length + 1) [] s

/-- The digit/dot/underscore loop of `read_number_no_exponent` (lines
1029-1073): returns (result, builder, is_empty, rest). -/
def read_number_no_exponent_loop (base_digits : List Char) :
    Nat → List Char → Bool → Bool → List Char →
    Except String Unit × List Char × Bool × List Char
  | 0, b, _, em, s => (.error ("internal fuel"), b, em, s)
  | fuel + 1, number_builder, is_fraction, is_empty, s =>
    match peekL s with
    | none => (.ok (), number_builder, is_empty, s)
    | some next =>
      if base_digits.contains (to_ascii_lowercase next) then
        read_number_no_exponent_loop base_digits fuel
          (number_builder ++ [next]) is_fraction false s.tail
      else if next = '.' then
        if number_builder.getLast? = some '_' then
          (.error ("`.` must not follow `_` in number"), number_builder,
            is_empty, s)
        else
          if is_fraction then
            (.error ("Duplicate `.` in number"), number_builder ++ [next],
              false, s.tail)
          else
            read_number_no_exponent_loop base_digits fuel
              (number_builder ++ [next]) true false s.tail
      else if next = '_' then
        if number_builder.getLast? = some '.' then
          (.error ("`_` must not follow `.` in number"), number_builder,
            is_empty, s)
        else
          read_number_no_exponent_loop base_digits fuel
            (number_builder ++ [next]) is_fraction false s.tail
      else (.ok (), number_builder, is_empty, s)

/-- `read_number_no_exponent` (lines 1015-1092): returns (result, builder,
rest); errors keep the partially built lexeme. -/
def read_number_no_exponent (number_builder : List Char)
    (base_digits : List Char) (has_base_specifier has_leading_zero : Bool)
    (s : List Char) : Except String Unit × List Char × List Char :=
  if ¬ has_base_specifier ∧ ¬ has_leading_zero ∧ peekL s = some '_' then
    (.error ("Leading `_` in number"), number_builder, s)
  else
    match read_number_no_exponent_loop base_digits (s.length + 1)
        number_builder false (!has_leading_zero) s with
    | (.error e, b, _, s1) => (.error e, b, s1)
    | (.ok _, b, is_empty, s1) =>
      if is_empty then (.error ("Empty number"), b, s1)
      else if b.any (fun c =>
          decide (c ≠ '.' ∧ c ≠ '-' ∧ c ≠ '+' ∧ c ≠ '_')) = false then
        (.error ("Number must have at least one digit"), b, s1)
      else if b.getLast? = some '_' then
        (.error ("Trailing `_` in number"), b, s1)
      else (.ok (), b, s1)

/-- The exponent half of `read_number` (lines 975-1013). -/
def read_number_main (number_builder : List Char) (base_digits : List Char)
    (has_base_specifier has_leading_zero : Bool) (s : List Char) :
    Except String Unit × List Char × List Char :=
  match read_number_no_exponent number_builder base_digits has_base_specifier
      has_leading_zero s with
  | (.error e, b, s1) => (.error e, b, s1)
  | (.ok _, b, s1) =>
    if b.getLast? = some 'e' ∨ b.getLast? = some 'E' then
      match readAnyL ['-', '+'] s1 with
      | (some exponent_sign, s2) =>
        let b2 := b ++ [exponent_sign]
        if has_base_specifier ∧ b2.length = 4 then
          (.error ("Missing digit between base specifier and exponent"), b2, s2)
        else read_number_no_exponent b2 base_digits false false s2
      | (none, s2) => (.ok (), b, s2)
    else
      match readAnyL ['e', 'E'] s1 with
      | (some exponent_char, s2) =>
        let b2 := b ++ [exponent_char]
        let ps := readAnyL ['-', '+'] s2
        let b3 := b2 ++ (match ps.1 with | some c => [c] | none => [])
        read_number_no_exponent b3 base_digits false false ps.2
      | (none, s2) => (.ok (), b, s2)

/-- The base-specifier probes and dispatch of `read_number` (lines 948-973),
entered after a leading `0` was consumed. -/
def read_number_base (b2 : List Char) (s : List Char) :
    Except String Unit × List Char × List Char :=
  match readAnyL ['x', 'X'] s with
  | (ox, s1) =>
    match readAnyL ['b', 'B'] s1 with
    | (ob, s2) =>
      match readAnyL ['o', 'O'] s2 with
      | (oo, s3) =>
        let b3 := b2 ++ (match ox with | some c => [c] | none => [])
          ++ (match ob with | some c => [c] | none => [])
          ++ (match oo with | some c => [c] | none => [])
        let base_digits :=
          if oo.isSome then oct_digits
          else if ob.isSome then bin_digits
          else if ox.isSome then hex_digits
          else dec_digits
        let has_base_specifier := ox.isSome || ob.isSome || oo.isSome
        read_number_main b3 base_digits has_base_specifier
          (!has_base_specifier) s3

/-- `read_number` (lines 941-1014): sign, optional base specifier (the three
`read_any` probes run sequentially, each consuming and overriding), then the
main number and the exponent. Returns (result, lexeme builder, rest). -/
def read_number (s0 : List Char) : Except String Unit × List Char × List Char :=
  match readAnyL ['-', '+'] s0 with
  | (osign, s1) =>
    let b1 : List Char := match osign with | some sign => [sign] | none => []
    match readOneL '0' s1 with
    | (true, s2) => read_number_base (b1 ++ ['0']) s2
    | (false, s2) => read_number_main b1 dec_digits false false s2

/-- `read_number_or_quoteless_string` (lines 1093-1112). -/
def read_number_or_quoteless_string (o : JsonhReaderOptions) (s : List Char) :
    Except String JsonhToken × List Char :=
  match read_number s with
  | (.ok _, number_builder, s1) =>
    match detect_quoteless_string o s1 with
    | (true, whitespace_chars, s2) =>
      read_quoteless_string o (number_builder ++ whitespace_chars) false s2
    | (false, _, s2) => (.ok (JsonhToken.new .Number number_builder), s2)
  | (.error _, number_builder, s1) =>
    read_quoteless_string o number_builder false s1

/-! ## read_string (lines 645-845) -/

/-- Count further start quotes (`while self.read_one(start_quote)`). -/
def count_quotes (q : Char) : List Char → Nat × List Char
  | [] => (0, [])
  | c :: rest =>
    if c = q then
      let p := count_quotes q rest
      (p.1 + 1, p.2)
    else (0, c :: rest)

/-- The character-collection loop of `read_string` (lines 680-717). -/
def read_string_loop (start_quote_counter : Nat) (start_quote : Char)
    (is_verbatim : Bool) :
    Nat → Nat → List Char → List Char → Except String (List Char) × List Char
  | 0, _, _, s => (.error ("internal fuel"), s)
  | fuel + 1, end_quote_counter, string_builder, s =>
    match s with
    | [] => (.error ("Expected end of string, got end of input"), [])
    | next :: rest =>
      let b1 :=
        if next ≠ start_quote then
          string_builder ++ List.replicate end_quote_counter start_quote
        else string_builder
      let eqc1 := if next ≠ start_quote then 0 else end_quote_counter
      if next = start_quote then
        if eqc1 + 1 = start_quote_counter then (.ok b1, rest)
        else read_string_loop start_quote_counter start_quote is_verbatim fuel
          (eqc1 + 1) b1 rest
      else if next = '\\' then
        if is_verbatim then
          read_string_loop start_quote_counter start_quote is_verbatim fuel
            eqc1 (b1 ++ [next]) rest
        else
          match read_escape_sequence rest with
          | (.ok (some c), s2) =>
            read_string_loop start_quote_counter start_quote is_verbatim fuel
              eqc1 (b1 ++ [c]) s2
          | (.ok none, s2) =>
            read_string_loop start_quote_counter start_quote is_verbatim fuel
              eqc1 b1 s2
          | (.error e, s2) => (.error e, s2)
      else
        read_string_loop start_quote_counter start_quote is_verbatim fuel
          eqc1 (b1 ++ [next]) rest

/-- Pass 1 (lines 724-748): scan leading whitespace; at the first newline
(CRLF joined) return the length of the leading-whitespace-newline region. -/
def string_pass1 : List Char → Nat → Option Nat
  | [], _ => none
  | c :: rest, idx =>
    if NEWLINE_CHARS.contains c then
      if c = '\r' ∧ rest.head? = some '\n' then some (idx + 2)
      else some (idx + 1)
    else if WHITESPACE_CHARS.contains c then string_pass1 rest (idx + 1)
    else none

/-- Pass 2 (lines 752-782): full scan for a trailing newline-then-whitespace
region; returns (found, last newline index, trailing whitespace count). -/
def string_pass2 : List Char → Nat → Bool → Nat → Nat → Bool × Nat × Nat
  | [], _, has, last, cnt => (has, last, cnt)
  | '\r' :: '\n' :: rest, idx, _, _, _ =>
    string_pass2 rest (idx + 2) true idx 0
  | c :: rest, idx, has, last, cnt =>
    if NEWLINE_CHARS.contains c then string_pass2 rest (idx + 1) true idx 0
    else if WHITESPACE_CHARS.contains c then
      string_pass2 rest (idx + 1) has last (cnt + 1)
    else string_pass2 rest (idx + 1) false last 0

/-- Pass 5 (lines 794-834): strip up to `w` line-leading whitespace characters
from each line. The source updates the index with `wrapping_sub` followed by
`wrapping_add 1`; on every reachable state the subtrahend is at most the index
plus one, so the composite equals the plain `Nat` expressions used here. -/
def string_pass5 (w : Nat) :
    Nat → List Char → Nat → Bool → Nat → List Char
  | 0, chars, _, _, _ => chars
  | fuel + 1, chars, i, is_line_leading, cnt =>
    match chars.get? i with
    | none => chars
    | some c =>
      if NEWLINE_CHARS.contains c then
        string_pass5 w fuel chars (i + 1) true 0
      else if WHITESPACE_CHARS.contains c then
        if is_line_leading then
          if cnt + 1 = w then
            string_pass5 w fuel (chars.take (i + 1 - w) ++ chars.drop (i + 1))
              (i + 1 - w) false w
          else string_pass5 w fuel chars (i + 1) true (cnt + 1)
        else string_pass5 w fuel chars (i + 1) false cnt
      else
        if is_line_leading then
          string_pass5 w fuel (chars.take (i - cnt) ++ chars.drop i)
            (i - cnt + 1) false cnt
        else string_pass5 w fuel chars (i + 1) false cnt

/-- The five-pass post-processing of multi-quoted strings (lines 719-841):
pass 3 keeps everything before the last newline, pass 4 drops the leading
region, pass 5 strips line-leading indentation when trailing whitespace was
found. -/
def multi_quote_post (chars : List Char) : List Char :=
  match string_pass1 chars 0 with
  | none => chars
  | some leading_whitespace_newline_counter =>
    match string_pass2 chars 0 false 0 0 with
    | (has_trailing, last_newline_index, trailing_whitespace_counter) =>
      if has_trailing then
        let chars4 :=
          (chars.take last_newline_index).drop leading_whitespace_newline_counter
        if 0 < trailing_whitespace_counter then
          string_pass5 trailing_whitespace_counter (chars4.length + 1)
            chars4 0 true 0
        else chars4
      else chars

/-- `read_string` (lines 645-845). -/
def read_string_quoted (_o : JsonhReaderOptions) (is_verbatim : Bool)
    (start_quote : Char) (s2 : List Char) :
    Except String JsonhToken × List Char :=
  match count_quotes start_quote s2 with
  | (extra, s3) =>
    let start_quote_counter := 1 + extra
    if start_quote_counter = 2 then (.ok (JsonhToken.new .String []), s3)
    else
      match read_string_loop start_quote_counter start_quote is_verbatim
          (s3.length + 1) 0 [] s3 with
      | (.error e, s4) => (.error e, s4)
      | (.ok string_builder, s4) =>
        let sb2 :=
          if 1 < start_quote_counter then multi_quote_post string_builder
          else string_builder
        (.ok (JsonhToken.new .String sb2), s4)

/-- The body of `read_string` after the verbatim probe. -/
def read_string_after_verbatim (o : JsonhReaderOptions) (is_verbatim : Bool)
    (s1 : List Char) : Except String JsonhToken × List Char :=
  let verbatim_bad : Bool :=
    match peekL s1 with
    | none => true
    | some n => decide (n = '#' ∨ n = '/') || WHITESPACE_CHARS.contains n
  if is_verbatim ∧ verbatim_bad then
    (.error ("Expected string to immediately follow verbatim symbol"), s1)
  else
    match readAnyL ['"', '\x27'] s1 with
    | (none, s2) => read_quoteless_string o [] is_verbatim s2
    | (some start_quote, s2) =>
      read_string_quoted o is_verbatim start_quote s2

/-- `read_string` (lines 645-845). -/
def read_string (o : JsonhReaderOptions) (s0 : List Char) :
    Except String JsonhToken × List Char :=
  if o.supports_version .V2 then
    match readOneL '@' s0 with
    | (is_verbatim, s1) => read_string_after_verbatim o is_verbatim s1
  else read_string_after_verbatim o false s0

/-- `read_primitive_element` (lines 1113-1131). -/
def read_primitive_element (o : JsonhReaderOptions) (s : List Char) :
    Except String JsonhToken × List Char :=
  match peekL s with
  | none => (.error ("Expected primitive element, got end of input"), s)
  | some next =>
    if is_ascii_digit next ∨ next = '-' ∨ next = '+' ∨ next = '.' then
      read_number_or_quoteless_string o s
    else if next = '"' ∨ next = '\x27' ∨
        (o.supports_version .V2 ∧ next = '@') then
      read_string o s
    else read_quoteless_string o [] false s

/-- `read_property_name` (lines 533-560): read a string, comments and
whitespace (emitted), require `:`, then emit a single PropertyName token. -/
def read_property_name (o : JsonhReaderOptions) (s : List Char) : ScanOut :=
  match read_string o s with
  | (.error e, s1) => ⟨[], some e, s1⟩
  | (.ok string_tok, s1) =>
    match read_comments_and_whitespace o s1 with
    | ⟨ctoks, some e, csrc⟩ => ⟨ctoks, some e, csrc⟩
    | ⟨ctoks, none, csrc⟩ =>
      match readOneL ':' csrc with
      | (false, s2) =>
        ⟨ctoks, some ("Expected `:` after property name in object"), s2⟩
      | (true, s2) =>
        ⟨ctoks ++
          [⟨JsonhToken.new .PropertyName string_tok.value, false, s2.length⟩],
          none, s2⟩

/-! ## The token-emitting element readers (lines 254-644)

The mutually recursive readers operate on the full `JsonhReader` state and
take explicit fuel; each recursive call (including loop iterations) consumes
one unit. `none` means fuel ran out; every claim below either evaluates at a
fuel large enough (verified by the evaluation itself) or quantifies over all
fuels. -/

/-- Output of a token-emitting reader: emitted tokens, an optional terminal
error, and the final reader state. -/
structure Out where
  toks : List Emitted
  err : Option String
  st : JsonhReader
deriving DecidableEq, Repr

/-- Fuelled output (`none` = fuel exhausted). -/
abbrev TOut := Option Out

/-- Run the continuation after `x` unless fuel ran out or `x` ended in an
error, prefixing the tokens of `x` (the ubiquitous
`for token_result in ... { if err { yield; return } yield }` pattern). -/
def andThen (x : TOut) (k : JsonhReader → TOut) : TOut :=
  match x with
  | none => none
  | some a =>
    match a.err with
    | some _ => some a
    | none =>
      match k a.st with
      | none => none
      | some b => some ⟨a.toks ++ b.toks, b.err, b.st⟩

/-- Prefix already-emitted tokens onto a fuelled output. -/
def prepend (ts : List Emitted) (x : TOut) : TOut :=
  match x with
  | none => none
  | some b => some ⟨ts ++ b.toks, b.err, b.st⟩

/-- Make an emitted token; `remaining` records the source length at the
emission site. -/
def emit (t : JsonhToken) (from_braceless : Bool) (r : JsonhReader) : Emitted :=
  ⟨t, from_braceless, r.source.length⟩

/-- Lift a `ScanOut` produced on `r.source` back onto the reader `r` (the
scanners only consume source characters). -/
def liftScan (r : JsonhReader) (x : ScanOut) : Out :=
  match x with
  | ⟨toks, err, src⟩ => ⟨toks, err, { r with source := src }⟩

/-- `read_comments_and_whitespace` acting on the reader state. -/
def cwR (r : JsonhReader) : Out :=
  liftScan r (read_comments_and_whitespace r.options r.source)

mutual

/-- `read_element` (lines 272-327). -/
def read_element : Nat → JsonhReader → TOut
  | 0, _ => none
  | fuel + 1, r =>
    match cwR r with
    | ⟨ctoks, some e, cst⟩ => some ⟨ctoks, some e, cst⟩
    | ⟨ctoks, none, cst⟩ =>
      match cst.peek with
      | none =>
        some ⟨ctoks, some ("Expected token, got end of input"), cst⟩
      | some next =>
        if next = '\x7b' then prepend ctoks (read_object fuel cst)
        else if next = '[' then prepend ctoks (read_array fuel cst)
        else
          match read_primitive_element cst.options cst.source with
          | (.error e, s1) =>
            some ⟨ctoks, some e, { cst with source := s1 }⟩
          | (.ok tok, s1) =>
            prepend ctoks
              (read_braceless_object_or_end_of_primitive fuel tok
                { cst with source := s1 })

/-- `read_object` (lines 329-394), up to the property loop. -/
def read_object : Nat → JsonhReader → TOut
  | 0, _ => none
  | fuel + 1, r =>
    match readOneL '\x7b' r.source with
    | (false, _) => read_braceless_object fuel none r
    | (true, s1) =>
      let r1 : JsonhReader := { r with source := s1 }
      let e1 := emit (JsonhToken.new_empty .StartObject) false r1
      let r2 : JsonhReader := { r1 with depth := r1.depth + 1 }
      if r2.options.max_depth < r2.depth then
        some ⟨[e1], some ("Exceeded max depth"), r2⟩
      else prepend [e1] (read_object_loop fuel r2)

/-- The property loop of `read_object` (lines 353-393). -/
def read_object_loop : Nat → JsonhReader → TOut
  | 0, _ => none
  | fuel + 1, r =>
    match cwR r with
    | ⟨ctoks, some e, cst⟩ => some ⟨ctoks, some e, cst⟩
    | ⟨ctoks, none, cst⟩ =>
      match cst.peek with
      | none =>
        if cst.options.incomplete_inputs then
          let r1 : JsonhReader := { cst with depth := cst.depth - 1 }
          some ⟨ctoks ++ [emit (JsonhToken.new_empty .EndObject) false r1],
            none, r1⟩
        else
          some ⟨ctoks,
            some ("Expected `\x7d` to end object, got end of input"), cst⟩
      | some next =>
        if next = '\x7d' then
          let r1 : JsonhReader :=
            { cst with
              source := cst.source.tail
              depth := cst.depth - 1 }
          some ⟨ctoks ++ [emit (JsonhToken.new_empty .EndObject) false r1],
            none, r1⟩
        else
          prepend ctoks
            (andThen (read_property fuel none cst) (read_object_loop fuel))

/-- `read_braceless_object` (lines 396-446). -/
def read_braceless_object :
    Nat → Option (List Emitted) → JsonhReader → TOut
  | 0, _, _ => none
  | fuel + 1, property_name_tokens, r =>
    let e1 := emit (JsonhToken.new_empty .StartObject) true r
    let r2 : JsonhReader := { r with depth := r.depth + 1 }
    if r2.options.max_depth < r2.depth then
      some ⟨[e1], some ("Exceeded max depth"), r2⟩
    else
      match property_name_tokens with
      | some ts =>
        prepend [e1]
          (andThen (read_property fuel (some ts) r2)
            (read_braceless_object_loop fuel))
      | none => prepend [e1] (read_braceless_object_loop fuel r2)

/-- The property loop of `read_braceless_object` (lines 419-444): the
braceless EndObject is emitted exactly when the source is exhausted. -/
def read_braceless_object_loop : Nat → JsonhReader → TOut
  | 0, _ => none
  | fuel + 1, r =>
    match cwR r with
    | ⟨ctoks, some e, cst⟩ => some ⟨ctoks, some e, cst⟩
    | ⟨ctoks, none, cst⟩ =>
      match cst.peek with
      | none =>
        let r1 : JsonhReader := { cst with depth := cst.depth - 1 }
        some ⟨ctoks ++ [emit (JsonhToken.new_empty .EndObject) true r1],
          none, r1⟩
      | some _ =>
        prepend ctoks
          (andThen (read_property fuel none cst)
            (read_braceless_object_loop fuel))

/-- `read_braceless_object_or_end_of_primitive` (lines 447-483): buffer
comments and whitespace; a following `:` promotes the primitive into the
first property name of a braceless object, otherwise the primitive and the
buffered tokens are emitted. -/
def read_braceless_object_or_end_of_primitive :
    Nat → JsonhToken → JsonhReader → TOut
  | 0, _, _ => none
  | fuel + 1, primitive_token, r =>
    match cwR r with
    | ⟨_, some e, cst⟩ => some ⟨[], some e, cst⟩
    | ⟨ctoks, none, cst⟩ =>
      match readOneL ':' cst.source with
      | (false, _) =>
        some ⟨emit primitive_token false cst :: ctoks, none, cst⟩
      | (true, s1) =>
        let r1 : JsonhReader := { cst with source := s1 }
        read_braceless_object fuel
          (some (ctoks ++
            [emit (JsonhToken.new .PropertyName primitive_token.value) false r1]))
          r1

/-- `read_property` (lines 484-532). -/
def read_property :
    Nat → Option (List Emitted) → JsonhReader → TOut
  | 0, _, _ => none
  | fuel + 1, property_name_tokens, r =>
    match
      (match property_name_tokens with
       | some ts => (⟨ts, none, r⟩ : Out)
       | none => liftScan r (read_property_name r.options r.source)) with
    | ⟨ftoks, some e, fst⟩ => some ⟨ftoks, some e, fst⟩
    | ⟨ftoks, none, fst⟩ =>
      prepend ftoks (
        match cwR fst with
        | ⟨c1, some e, c1st⟩ => some ⟨c1, some e, c1st⟩
        | ⟨c1, none, c1st⟩ =>
          prepend c1
            (andThen (read_element fuel c1st) (fun r2 =>
              match cwR r2 with
              | ⟨c2, some e, c2st⟩ => some ⟨c2, some e, c2st⟩
              | ⟨c2, none, c2st⟩ =>
                some ⟨c2, none,
                  { c2st with source := (readOneL ',' c2st.source).2 }⟩)))

/-- `read_array` (lines 561-619), up to the item loop. -/
def read_array : Nat → JsonhReader → TOut
  | 0, _ => none
  | fuel + 1, r =>
    match readOneL '[' r.source with
    | (false, _) => some ⟨[], some ("Expected `[` to start array"), r⟩
    | (true, s1) =>
      let r1 : JsonhReader := { r with source := s1 }
      let e1 := emit (JsonhToken.new_empty .StartArray) false r1
      let r2 : JsonhReader := { r1 with depth := r1.depth + 1 }
      if r2.options.max_depth < r2.depth then
        some ⟨[e1], some ("Exceeded max depth"), r2⟩
      else prepend [e1] (read_array_loop fuel r2)

/-- The item loop of `read_array` (lines 578-618). -/
def read_array_loop : Nat → JsonhReader → TOut
  | 0, _ => none
  | fuel + 1, r =>
    match cwR r with
    | ⟨ctoks, some e, cst⟩ => some ⟨ctoks, some e, cst⟩
    | ⟨ctoks, none, cst⟩ =>
      match cst.peek with
      | none =>
        if cst.options.incomplete_inputs then
          let r1 : JsonhReader := { cst with depth := cst.depth - 1 }
          some ⟨ctoks ++ [emit (JsonhToken.new_empty .EndArray) false r1],
            none, r1⟩
        else
          some ⟨ctoks,
            some ("Expected `]` to end array, got end of input"), cst⟩
      | some next =>
        if next = ']' then
          let r1 : JsonhReader :=
            { cst with
              source := cst.source.tail
              depth := cst.depth - 1 }
          some ⟨ctoks ++ [emit (JsonhToken.new_empty .EndArray) false r1],
            none, r1⟩
        else
          prepend ctoks
            (andThen (read_item fuel cst) (read_array_loop fuel))

/-- `read_item` (lines 621-644): element, comments and whitespace, optional
comma. -/
def read_item : Nat → JsonhReader → TOut
  | 0, _ => none
  | fuel + 1, r =>
    andThen (read_element fuel r) (fun r1 =>
      match cwR r1 with
      | ⟨c2, some e, c2st⟩ => some ⟨c2, some e, c2st⟩
      | ⟨c2, none, c2st⟩ =>
        some ⟨c2, none,
          { c2st with source := (readOneL ',' c2st.source).2 }⟩)

end

/-- `read_end_of_elements` (lines 254-270): comments and whitespace, then the
end-of-elements check. Note the source yields the error exactly when
`peek()` is `None`, that is at end of input. -/
def read_end_of_elements (r : JsonhReader) : Out :=
  match cwR r with
  | ⟨ctoks, some e, cst⟩ => ⟨ctoks, some e, cst⟩
  | ⟨ctoks, none, cst⟩ =>
    if cst.peek = none then
      ⟨ctoks, some ("Expected end of elements"), cst⟩
    else ⟨ctoks, none, cst⟩

/-! ## The value builder (`parse_element`, lines 73-197)

`serde_json::Value` becomes `JsonValue` with rational numbers. The builder
keeps the stack of in-progress containers (head = innermost, mirroring the
`Vec` whose last element is the innermost) and the pending property name.
Places where the Rust would panic (`unwrap` on a non-array, string-indexing a
non-object non-null value, popping an empty stack) are modelled by the error
"internal panic"; none of them is reachable from a token stream the tokenizer
produces, and no theorem relies on them. -/

/-- The JSON value tree. Object entries keep insertion order with
replace-on-duplicate; the `serde_json` map's internal ordering is never
observed by any theorem. -/
inductive JsonValue where
  | null
  | bool (b : Bool)
  | number (q : F64)
  | str (s : List Char)
  | arr (items : List JsonValue)
  | obj (entries : List (List Char × JsonValue))
deriving Repr

/-- Insert-or-replace for object entries (`map[key] = value`). -/
def insertEntry (name : List Char) (v : JsonValue) :
    List (List Char × JsonValue) → List (List Char × JsonValue)
  | [] => [(name, v)]
  | (k, w) :: rest =>
    if k = name then (k, v) :: rest else (k, w) :: insertEntry name v rest

/-- `submit_element` (lines 77-93): attach `element` to the innermost open
container, or report that it is the root. Returns (is root, stack, pending
name). -/
def submit_element (stack : List JsonValue) (pn : Option (List Char))
    (element : JsonValue) :
    Except String (Bool × List JsonValue × Option (List Char)) :=
  match stack with
  | [] => .ok (true, [], pn)
  | top :: rest =>
    match pn with
    | none =>
      match top with
      | .arr items => .ok (false, .arr (items ++ [element]) :: rest, none)
      | _ => .error ("internal panic")
    | some name =>
      match top with
      | .obj entries =>
        .ok (false, .obj (insertEntry name element entries) :: rest, none)
      | .null => .ok (false, .obj [(name, element)] :: rest, none)
      | _ => .error ("internal panic")

/-- `start_element` (lines 94-97): submit a copy of the empty container to the
parent, then push the container. -/
def start_element (stack : List JsonValue) (pn : Option (List Char))
    (element : JsonValue) :
    Except String (List JsonValue × Option (List Char)) :=
  match submit_element stack pn element with
  | .error e => .error e
  | .ok (_, stack1, pn1) => .ok (element :: stack1, pn1)

/-- The token-consuming loop of `parse_next_element` (lines 98-180): walk the
emitted tokens; a completed root returns immediately (the tokens that could
still follow are buffered comments, which read no input). When the tokens run
out, the stream's terminal error (or the end-of-input error) surfaces. -/
def build_value : List Emitted → List JsonValue → Option (List Char) →
    Option String → Except String JsonValue
  | [], _, _, final_err =>
    .error (final_err.getD ("Expected token, got end of input"))
  | t :: rest, stack, pn, final_err =>
    match t.tok.json_type with
    | .Null =>
      match submit_element stack pn .null with
      | .error e => .error e
      | .ok (true, _, _) => .ok .null
      | .ok (false, stack1, pn1) => build_value rest stack1 pn1 final_err
    | .True =>
      match submit_element stack pn (.bool true) with
      | .error e => .error e
      | .ok (true, _, _) => .ok (.bool true)
      | .ok (false, stack1, pn1) => build_value rest stack1 pn1 final_err
    | .False =>
      match submit_element stack pn (.bool false) with
      | .error e => .error e
      | .ok (true, _, _) => .ok (.bool false)
      | .ok (false, stack1, pn1) => build_value rest stack1 pn1 final_err
    | .String =>
      match submit_element stack pn (.str t.tok.value) with
      | .error e => .error e
      | .ok (true, _, _) => .ok (.str t.tok.value)
      | .ok (false, stack1, pn1) => build_value rest stack1 pn1 final_err
    | .Number =>
      match JsonhNumberParser.parse t.tok.value with
      | .error e => .error e
      | .ok q =>
        match submit_element stack pn (.number q) with
        | .error e => .error e
        | .ok (true, _, _) => .ok (.number q)
        | .ok (false, stack1, pn1) => build_value rest stack1 pn1 final_err
    | .StartObject =>
      match start_element stack pn (.obj []) with
      | .error e => .error e
      | .ok (stack1, pn1) => build_value rest stack1 pn1 final_err
    | .StartArray =>
      match start_element stack pn (.arr []) with
      | .error e => .error e
      | .ok (stack1, pn1) => build_value rest stack1 pn1 final_err
    | .EndObject =>
      match stack with
      | [] => .error ("internal panic")
      | [root] => .ok root
      | _ :: top2 :: rest2 => build_value rest (top2 :: rest2) pn final_err
    | .EndArray =>
      match stack with
      | [] => .error ("internal panic")
      | [root] => .ok root
      | _ :: top2 :: rest2 => build_value rest (top2 :: rest2) pn final_err
    | .PropertyName => build_value rest stack (some t.tok.value) final_err
    | .Comment => build_value rest stack pn final_err

/-- `parse_element` (lines 73-197): build the root value from one
`read_element` stream; in single-element mode, run `read_end_of_elements`
afterwards and surface its error. -/
def parse_element (fuel : Nat) (r : JsonhReader) :
    Option (Except String JsonValue) :=
  match read_element fuel r with
  | none => none
  | some ⟨toks, err, st⟩ =>
    match build_value toks [] none err with
    | .error e => some (.error e)
    | .ok root =>
      if st.options.parse_single_element then
        match (read_end_of_elements st).err with
        | some e => some (.error e)
        | none => some (.ok root)
      else some (.ok root)

/-- `parse_element_from_str` (lines 64-66). -/
def parse_element_from_str (fuel : Nat) (source : List Char)
    (options : JsonhReaderOptions) : Option (Except String JsonValue) :=
  parse_element fuel (JsonhReader.from_str source options)

/-! ## Named option configurations used by the theorems -/

/-- Default options with `parse_single_element` enabled. -/
def single_element_options : JsonhReaderOptions :=
  { JsonhReaderOptions.new with parse_single_element := true }

/-- Default options with `incomplete_inputs` enabled. -/
def incomplete_options : JsonhReaderOptions :=
  { JsonhReaderOptions.new with incomplete_inputs := true }

/-- Default options with `max_depth := -1` (the field is a signed `i32`). -/
def negative_depth_options : JsonhReaderOptions :=
  { JsonhReaderOptions.new with max_depth := -1 }

/-- Default options with `max_depth := 1`. -/
def shallow_depth_options : JsonhReaderOptions :=
  { JsonhReaderOptions.new with max_depth := 1 }

/-- The C5 ghost invariant on emitted token lists: every token emitted from
inside the braceless-object reader (`from_braceless = true`) whose type is
`EndObject` was emitted with no source characters remaining. -/
abbrev GoodBr (ts : List Emitted) : Prop :=
  ∀ e ∈ ts, e.from_braceless = true → e.tok.json_type = .EndObject →
    e.remaining = 0

/-- All tokens of the list come from outside the braceless-object reader. -/
abbrev AllFalse (ts : List Emitted) : Prop :=
  ∀ e ∈ ts, e.from_braceless = false

/-- The token list ends in a container-opening token (C10). -/
abbrev lastStart (ts : List Emitted) : Prop :=
  ∃ e, ts.getLast? = some e ∧
    (e.tok.json_type = .StartObject ∨ e.tok.json_type = .StartArray)

/-! ## Evaluation lemma set

The equations of every executable definition above are registered with `simp`,
so that concrete runs of the embedded code are proved by rewriting (which
evaluates call-by-value and shares work). Universal theorems below use
`simp only` with explicit lemma lists instead. -/

attribute [simp] JsonhToken.new JsonhToken.new_empty JsonhVersion.discr
  JsonhReaderOptions.new JsonhReaderOptions.supports_version
  RESERVED_CHARS_V1 RESERVED_CHARS_V2 NEWLINE_CHARS WHITESPACE_CHARS
  to_ascii_lowercase char_from_u32 hex_digit_to_int is_ascii_digit
  JsonhReader.from_str JsonhReader.peek JsonhReader.read reserved_chars
  peekL readOneL readAnyL is_utf16_high_surrogate is_utf16_low_surrogate
  utf16_surrogates_to_code_point read_hex_sequence
  read_hex_escape_sequence_pending read_escape_sequence_pending
  read_hex_escape_sequence read_escape_sequence
  F64.ofNat F64.ofInt F64.add F64.mul F64.div F64.powTen F64.powTenInt
  dec_digits hex_digits bin_digits oct_digits nat_of_digits
  rust_parse_f64_exp_digits rust_parse_f64_exp rust_parse_f64_unsigned
  rust_parse_f64 find_first_index whole_number_horner parse_whole_number_horner
  parse_whole_number fraction_columns parse_fractional_number
  hex_exponent_scan find_exponent_index pow10
  parse_fractional_number_with_exponent JsonhNumberParser.parse_based
  JsonhNumberParser.parse
  read_whitespace count_eq count_eq_up_to read_comment_loop read_comment
  read_comments_and_whitespace_loop read_comments_and_whitespace
  read_quoteless_string_loop trim_whitespace read_quoteless_string
  detect_quoteless_string_loop detect_quoteless_string
  read_number_no_exponent_loop read_number_no_exponent read_number_main
  read_number_base read_number read_number_or_quoteless_string
  count_quotes read_string_loop string_pass1 string_pass2 string_pass5
  multi_quote_post read_string_quoted read_string_after_verbatim read_string
  read_primitive_element read_property_name
  andThen prepend emit liftScan cwR
  read_element read_object read_object_loop read_braceless_object
  read_braceless_object_loop read_braceless_object_or_end_of_primitive
  read_property read_array read_array_loop read_item
  read_end_of_elements
  insertEntry submit_element start_element build_value
  parse_element parse_element_from_str
  single_element_options incomplete_options negative_depth_options
  shallow_depth_options

/-! ## Theorems for the claims -/

/-- C1: the source's `read_end_of_elements` (lines 254-270) yields
"Expected end of elements" exactly when `peek()` is `None`, i.e. when the
input IS exhausted — the opposite of its doc comment ("errors if the reader
contains another element"), of the spec, and of the repository's own
`parse_single_element_test`. Consequently, with `parse_single_element = true`,
the input `1`, newline, `2` parses successfully to 1.0 while `1` followed by
two newlines fails with "Expected end of elements" — exactly the reverse of
the claim. This theorem evaluates the embedded code at both inputs. -/
theorem C1_single_element_check_inverted :
    parse_element_from_str 100 (("1\n2").toList) single_element_options =
      some (.ok (.number ⟨1, 1⟩)) ∧
    parse_element_from_str 100 (("1\n\n").toList) single_element_options =
      some (.error ("Expected end of elements")) := by
  constructor <;> simp

/-- C2: `JsonhReader::read` (lines 1393-1395) is `self.source.next()` and
never touches `char_counter` (no statement in the source increments it), even
though the field's own doc comment calls it "The number of characters read
from `source`". Reading a character leaves `char_counter` unchanged instead of
incrementing it by one. -/
theorem C2_char_counter_never_incremented :
    (JsonhReader.read (JsonhReader.from_str ['a'] JsonhReaderOptions.new)).1 =
      some 'a' ∧
    (JsonhReader.read
        (JsonhReader.from_str ['a'] JsonhReaderOptions.new)).2.char_counter =
      (JsonhReader.from_str ['a'] JsonhReaderOptions.new).char_counter ∧
    ¬ ((JsonhReader.read
        (JsonhReader.from_str ['a'] JsonhReaderOptions.new)).2.char_counter =
      (JsonhReader.from_str ['a'] JsonhReaderOptions.new).char_counter + 1) := by
  refine ⟨by simp, by simp, by simp⟩

/-- C3 counterexample: on the claim's exact input `[1, 2, 3 4 5,6]` the code
returns the FOUR-element array [1.0, 2.0, "3 4 5", 6.0]: after the number `3`,
`detect_quoteless_string` sees only spaces (no comma or newline) before `4`,
so `3 4 5` is re-read as one quoteless string. The claimed five-element array
is not the result. (The repository's own `array_test` uses a newline between
`3` and `4 5`; the spec transcribed it without the newline.) -/
theorem C3_counterexample_whitespace_run :
    parse_element_from_str 100 (("[1, 2, 3 4 5,6]").toList)
        JsonhReaderOptions.new =
      some (.ok (.arr [.number ⟨1, 1⟩, .number ⟨2, 1⟩,
        .str (("3 4 5").toList), .number ⟨6, 1⟩])) ∧
    ¬ (parse_element_from_str 100 (("[1, 2, 3 4 5,6]").toList)
        JsonhReaderOptions.new =
      some (.ok (.arr [.number ⟨1, 1⟩, .number ⟨2, 1⟩, .number ⟨3, 1⟩,
        .str (("4 5").toList), .number ⟨6, 1⟩]))) := by
  have hA : parse_element_from_str 100 (("[1, 2, 3 4 5,6]").toList)
      JsonhReaderOptions.new =
      some (.ok (.arr [.number ⟨1, 1⟩, .number ⟨2, 1⟩,
        .str (("3 4 5").toList), .number ⟨6, 1⟩])) := by simp
  refine ⟨hA, fun hB => ?_⟩
  rw [hA] at hB
  simp at hB

/-- C3 amended: `[1, 2, 3 4 5,6]` parses to the four-element array
[1.0, 2.0, "3 4 5", 6.0] (the whitespace-separated `3 4 5` collapses into one
quoteless string); with a newline after the `3` — the repository test's actual
input — the claimed five-element array [1.0, 2.0, 3.0, "4 5", 6.0] results,
because quoteless strings cannot extend over an unescaped newline. -/
theorem C3_amended_array_parse :
    parse_element_from_str 100 (("[1, 2, 3 4 5,6]").toList)
        JsonhReaderOptions.new =
      some (.ok (.arr [.number ⟨1, 1⟩, .number ⟨2, 1⟩,
        .str (("3 4 5").toList), .number ⟨6, 1⟩])) ∧
    parse_element_from_str 100 (("[1, 2, 3\n4 5,6]").toList)
        JsonhReaderOptions.new =
      some (.ok (.arr [.number ⟨1, 1⟩, .number ⟨2, 1⟩, .number ⟨3, 1⟩,
        .str (("4 5").toList), .number ⟨6, 1⟩])) := by
  constructor <;> simp

/-- C4: the tokenizer deliberately accepts uppercase base specifiers
(`read_any(&['x', 'X'])`, lines 955-960) and emits the Number token `0X5`
without error, but `JsonhNumberParser::parse` recognizes only the lowercase
prefixes `0x`/`0b`/`0o` (jsonh_number_parser.rs lines 33-47), falls through to
the decimal `str::parse::<f64>`, and fails with "Error parsing number from
string". So `parse_element` on `0X5` produces neither a finite number nor the
error "Failed to convert number to JSON number", contradicting the claimed
dichotomy. -/
theorem C4_uppercase_base_prefix_breaks_dichotomy :
    (read_element 100
        (JsonhReader.from_str (("0X5").toList) JsonhReaderOptions.new)).map
        (fun out => (out.toks.map (fun e => e.tok), out.err)) =
      some ([JsonhToken.new .Number (("0X5").toList)], none) ∧
    JsonhNumberParser.parse (("0X5").toList) =
      .error ("Error parsing number from string") ∧
    parse_element_from_str 100 (("0X5").toList) JsonhReaderOptions.new =
      some (.error ("Error parsing number from string")) ∧
    ("Error parsing number from string" : String) ≠
      ("Failed to convert number to JSON number" : String) := by
  refine ⟨by simp, by simp, by simp, by simp⟩

/-- C8: the two concrete multi-quoted decodings. For
`"""` newline, two spaces, `hello world`, two spaces `"""` pass 2 finds no
trailing newline-whitespace region (non-whitespace follows the last newline),
so passes 3-5 are skipped and the content survives unchanged. For `"""`
newline, two spaces, `a`, newline, two spaces `"""` the five passes strip the
leading region, the trailing region, and the two-space indent, leaving `a`. -/
theorem C8_multi_quoted_indent_stripping :
    read_string JsonhReaderOptions.new
        (("\"\"\"\n  hello world  \"\"\"").toList) =
      (.ok (JsonhToken.new .String (("\n  hello world  ").toList)), []) ∧
    read_string JsonhReaderOptions.new (("\"\"\"\n  a\n  \"\"\"").toList) =
      (.ok (JsonhToken.new .String ['a']), []) := by
  constructor <;> simp

set_option maxRecDepth 8000 in
set_option maxHeartbeats 2000000 in
/-- C9: the UTF-16 surrogate-combination rule. Part 1: in-range high and low
surrogates combine by `0x10000 + ((hi - 0xD800) << 10) | (lo - 0xDC00)`.
Part 2: a high surrogate followed by a second escape value outside
U+DC00..U+DFFF is the error "Low surrogate out of range". Part 3: after a hex
escape decodes to a high-surrogate value, an immediately following backslash
hands control to the pending-escape reader (which accepts only `u`/`x`/`U`).
Part 4: the concrete decoding `"\U0001F47D and 👽"` = "(U+1F47D) and
(U+1F47D)". -/
theorem C9_surrogate_pair_joining :
    (∀ hi lo : Nat, 0xD800 ≤ hi → hi ≤ 0xDBFF → 0xDC00 ≤ lo → lo ≤ 0xDFFF →
      utf16_surrogates_to_code_point hi lo =
        .ok (0x10000 + (((hi - 0xD800) <<< 10) ||| (lo - 0xDC00)))) ∧
    (∀ hi lo : Nat, 0xD800 ≤ hi → hi ≤ 0xDBFF →
      ¬ (0xDC00 ≤ lo ∧ lo ≤ 0xDFFF) →
      utf16_surrogates_to_code_point hi lo =
        .error ("Low surrogate out of range")) ∧
    (∀ (len : Nat) (s s' rest : List Char) (hi : Nat),
      read_hex_sequence len 0 s = (.ok hi, s') →
      is_utf16_high_surrogate hi = true → s' = '\\' :: rest →
      read_hex_escape_sequence len s = read_escape_sequence_pending hi rest) ∧
    parse_element_from_str 100 (("\"\\U0001F47D and \\uD83D\\uDC7D\"").toList)
        JsonhReaderOptions.new =
      some (.ok (.str (Char.ofNat 0x1F47D :: (" and ".toList) ++
        [Char.ofNat 0x1F47D]))) := by
  refine ⟨?_, ?_, ?_, by rfl⟩
  · intro hi lo h1 h2 h3 h4
    simp only [utf16_surrogates_to_code_point, is_utf16_high_surrogate,
      is_utf16_low_surrogate]
    rw [if_neg, if_neg]
    · simp only [decide_eq_true_eq, not_and, not_not]
      omega
    · simp only [decide_eq_true_eq, not_and, not_not]
      omega
  · intro hi lo h1 h2 h3
    simp only [utf16_surrogates_to_code_point, is_utf16_high_surrogate,
      is_utf16_low_surrogate]
    rw [if_neg, if_pos]
    · simpa using h3
    · simp only [decide_eq_true_eq, not_and, not_not]
      omega
  · intro len s s' rest hi h1 h2 h3
    subst h3
    simp only [read_hex_escape_sequence, h1, h2, readOneL, if_pos]

/-- C9 witness: the combination rule, the low-surrogate error, and the
chaining rule instantiated at the concrete surrogate pair U+D83D, U+DC7D. -/
theorem C9_witness :
    utf16_surrogates_to_code_point 0xD83D 0xDC7D =
      .ok (0x10000 + (((0xD83D - 0xD800) <<< 10) ||| (0xDC7D - 0xDC00))) ∧
    utf16_surrogates_to_code_point 0xD83D 0xD000 =
      .error ("Low surrogate out of range") ∧
    read_hex_escape_sequence 4 (("D83D\\uDC7D").toList) =
      read_escape_sequence_pending 0xD83D (("uDC7D").toList) :=
  ⟨C9_surrogate_pair_joining.1 0xD83D 0xDC7D (by decide) (by decide)
      (by decide) (by decide),
   C9_surrogate_pair_joining.2.1 0xD83D 0xD000 (by decide) (by decide)
      (by decide),
   C9_surrogate_pair_joining.2.2.1 4 (("D83D\\uDC7D").toList)
      ('\\' :: (("uDC7D").toList)) (("uDC7D").toList) 0xD83D (by simp)
      (by decide) rfl⟩

set_option maxRecDepth 8000 in
set_option maxHeartbeats 2000000 in
/-- C6 counterexample: the quoteless input `true` decodes (via the
`t` escape) to collected text `true` — already trimmed — yet the
tokenizer emits a String token, not True: the escape set
`is_named_literal_possible` to false (jsonh_reader.rs line 871), so text
produced via escape sequences is never matched against the named literals,
refuting the claim's "however its characters were produced, including via
escape sequences". -/
theorem C6_counterexample_escaped_literal :
    read_quoteless_string JsonhReaderOptions.new [] false
        (("\\u0074rue").toList) =
      (.ok (JsonhToken.new .String (("true").toList)), []) ∧
    trim_whitespace (("true").toList) = (("true").toList) ∧
    JsonTokenType.String ≠ JsonTokenType.True := by
  refine ⟨by rfl, by simp, by simp⟩

/-- If the remaining source contains no backslash, the quoteless-string loop
never takes the escape branch, so the `is_named_literal_possible` flag comes
out exactly as it went in. -/
theorem read_quoteless_string_loop_flag (o : JsonhReaderOptions) :
    ∀ (fuel : Nat) (b : List Char) (lit : Bool) (s : List Char)
      (res : List Char × Bool) (s' : List Char),
      read_quoteless_string_loop o false fuel b lit s = (.ok res, s') →
      '\\' ∉ s → res.2 = lit := by
  intro fuel
  induction fuel with
  | zero =>
    intro b lit s res s' h hn
    simp [read_quoteless_string_loop] at h
  | succ n ih =>
    intro b lit s res s' h hn
    match s with
    | [] =>
      simp only [read_quoteless_string_loop, peekL, List.head?,
        Prod.mk.injEq, Except.ok.injEq] at h
      obtain ⟨h1, -⟩ := h
      rw [← h1]
    | c :: rest =>
      have hc : ¬ (c = '\\') := by
        intro hc
        exact hn (hc ▸ List.mem_cons_self c rest)
      have hrest : '\\' ∉ rest := fun hm => hn (List.mem_cons_of_mem c hm)
      simp only [read_quoteless_string_loop, peekL, List.head?] at h
      rw [if_neg hc] at h
      by_cases hres : (reserved_chars o).contains c
      · rw [if_pos hres] at h
        simp only [Prod.mk.injEq, Except.ok.injEq] at h
        obtain ⟨h1, -⟩ := h
        rw [← h1]
      · rw [if_neg hres] at h
        by_cases hnl : NEWLINE_CHARS.contains c
        · rw [if_pos hnl] at h
          simp only [Prod.mk.injEq, Except.ok.injEq] at h
          obtain ⟨h1, -⟩ := h
          rw [← h1]
        · rw [if_neg hnl] at h
          exact ih (b ++ [c]) lit rest res s' h hrest

/-- C6 amended: for every quoteless string read in non-verbatim mode whose
characters were all produced literally (no escape sequence encountered; in
particular whenever the remaining source contains no backslash), the tokenizer
emits a Null, True or False token exactly when the collected, trimmed text is
`null`, `true` or `false` (the token value is that trimmed text), and a String
token otherwise. When an escape sequence does occur, the named literals are
not matched and a String token results even if the trimmed text is `null`,
`true` or `false` (see the counterexample). -/
theorem C6_amended_literal_matching_without_escapes :
    ∀ (o : JsonhReaderOptions) (initial s s' : List Char) (tok : JsonhToken),
      '\\' ∉ s →
      read_quoteless_string o initial false s = (.ok tok, s') →
      ((tok.value = (("null").toList) → tok.json_type = .Null) ∧
       (tok.value = (("true").toList) → tok.json_type = .True) ∧
       (tok.value = (("false").toList) → tok.json_type = .False) ∧
       (tok.value ≠ (("null").toList) → tok.value ≠ (("true").toList) →
        tok.value ≠ (("false").toList) → tok.json_type = .String)) := by
  intro o initial s s' tok hn h
  simp only [read_quoteless_string, Bool.not_false] at h
  split at h
  · simp at h
  · next sb lit s1 heq =>
    have hflag : lit = true :=
      read_quoteless_string_loop_flag o (s.length + 1) initial true s
        (sb, lit) s1 heq hn
    subst hflag
    split at h
    · simp at h
    · split at h
      · next hcond =>
        simp only [Prod.mk.injEq, Except.ok.injEq] at h
        obtain ⟨h1, -⟩ := h
        subst h1
        refine ⟨fun _ => rfl, fun hv => by simp [JsonhToken.new] at hv,
          fun hv => by simp [JsonhToken.new] at hv,
          fun hv _ _ => absurd rfl hv⟩
      · next hcond1 =>
        split at h
        · next hcond =>
          simp only [Prod.mk.injEq, Except.ok.injEq] at h
          obtain ⟨h1, -⟩ := h
          subst h1
          refine ⟨fun hv => by simp [JsonhToken.new] at hv, fun _ => rfl,
            fun hv => by simp [JsonhToken.new] at hv,
            fun _ hv _ => absurd rfl hv⟩
        · next hcond2 =>
          split at h
          · next hcond =>
            simp only [Prod.mk.injEq, Except.ok.injEq] at h
            obtain ⟨h1, -⟩ := h
            subst h1
            refine ⟨fun hv => by simp [JsonhToken.new] at hv,
              fun hv => by simp [JsonhToken.new] at hv, fun _ => rfl,
              fun _ _ hv => absurd rfl hv⟩
          · next hcond3 =>
            simp only [Prod.mk.injEq, Except.ok.injEq] at h
            obtain ⟨h1, -⟩ := h
            subst h1
            simp only [true_and] at hcond1 hcond2 hcond3
            exact ⟨fun hv => absurd hv hcond1, fun hv => absurd hv hcond2,
              fun hv => absurd hv hcond3, fun _ _ _ => rfl⟩

/-- C6 witness: the amended theorem applied at the backslash-free source
`true`, whose trimmed text is `true` and whose token is the True token. -/
theorem C6_amended_witness :
    ('\\' ∉ (("true").toList)) ∧
    read_quoteless_string JsonhReaderOptions.new [] false (("true").toList) =
      (.ok (JsonhToken.new .True (("true").toList)), []) ∧
    (JsonhToken.new .True (("true").toList)).json_type = .True :=
  ⟨by decide, by simp,
    (C6_amended_literal_matching_without_escapes JsonhReaderOptions.new []
      (("true").toList) [] (JsonhToken.new .True (("true").toList))
      (by decide) (by simp)).2.1 rfl⟩

/-- Specification of `find_first_index`: a found index holds a satisfying
character and every earlier index does not. -/
theorem find_first_index_spec (p : Char → Bool) :
    ∀ (l : List Char) (i : Nat), find_first_index p l = some i →
      (∃ a, l.get? i = some a ∧ p a = true) ∧
      (∀ j, j < i → ∀ a, l.get? j = some a → p a = false) := by
  intro l
  induction l with
  | nil => intro i h; simp [find_first_index] at h
  | cons c rest ih =>
    intro i h
    simp only [find_first_index] at h
    by_cases hp : p c
    · rw [if_pos hp] at h
      simp only [Option.some.injEq] at h
      subst h
      exact ⟨⟨c, rfl, hp⟩, fun j hj => by omega⟩
    · rw [if_neg hp] at h
      rw [Option.map_eq_some'] at h
      obtain ⟨i', hi', rfl⟩ := h
      obtain ⟨⟨a, ha, hpa⟩, hbefore⟩ := ih i' hi'
      refine ⟨⟨a, by simpa using ha, hpa⟩, ?_⟩
      intro j hj b hb
      match j with
      | 0 =>
        simp only [List.get?] at hb
        cases hb
        simpa using hp
      | j' + 1 =>
        exact hbefore j' (by omega) b (by simpa using hb)

/-- Specification of the hex exponent scan: a found index (counted from the
running offset `k`) holds `e` or `E` immediately followed by `+` or `-`. -/
theorem hex_exponent_scan_spec :
    ∀ (l : List Char) (k i : Nat), hex_exponent_scan l k = some i →
      k ≤ i ∧ ∃ c, l.get? (i - k) = some c ∧ (c = 'e' ∨ c = 'E') ∧
        ∃ c2, l.get? (i - k + 1) = some c2 ∧ (c2 = '+' ∨ c2 = '-') := by
  intro l
  induction l with
  | nil => intro k i h; simp [hex_exponent_scan] at h
  | cons c rest ih =>
    intro k i h
    simp only [hex_exponent_scan] at h
    split at h
    · next hcond =>
      simp only [Option.some.injEq] at h
      subst h
      obtain ⟨hce, hsign⟩ := hcond
      refine ⟨le_refl _, c, by simp [Nat.sub_self], hce, ?_⟩
      match hr : rest with
      | [] => simp [hr] at hsign
      | c2 :: rest2 =>
        refine ⟨c2, by simp [Nat.sub_self], ?_⟩
        rcases hsign with h1 | h1 <;>
          simp only [List.head?, Option.some.injEq] at h1 <;>
          [exact Or.inl h1; exact Or.inr h1]
    · next hcond =>
      obtain ⟨hk, c', hc', he, c2, hc2, hs⟩ := ih (k + 1) i h
      refine ⟨by omega, c', ?_, he, c2, ?_, hs⟩
      · have : i - k = (i - (k + 1)) + 1 := by omega
        rw [this]
        simpa using hc'
      · have : i - k + 1 = (i - (k + 1) + 1) + 1 := by omega
        rw [this]
        simpa using hc2

/-- One satisfying position gives a positive `countP`. -/
theorem countP_pos_of_get (p : Char → Bool) :
    ∀ (l : List Char) (i : Nat) (a : Char),
      l.get? i = some a → p a = true → 1 ≤ l.countP p := by
  intro l
  induction l with
  | nil => intro i a h; simp at h
  | cons c rest ih =>
    intro i a h hp
    match i with
    | 0 =>
      simp only [List.get?, Option.some.injEq] at h
      subst h
      have h2 : (c :: rest).countP p = rest.countP p + 1 := by
        simp [List.countP_cons, hp]
      omega
    | i' + 1 =>
      have h1 := ih i' a (by simpa using h) hp
      by_cases hc : p c
      · have h2 : (c :: rest).countP p = rest.countP p + 1 := by
          simp [List.countP_cons, hc]
        omega
      · have h2 : (c :: rest).countP p = rest.countP p := by
          simp [List.countP_cons, hc]
        omega

/-- Two distinct satisfying positions force `countP` to be at least two. -/
theorem countP_two_le_of_get (p : Char → Bool) :
    ∀ (l : List Char) (i j : Nat) (a b : Char), i < j →
      l.get? i = some a → l.get? j = some b → p a = true → p b = true →
      2 ≤ l.countP p := by
  intro l
  induction l with
  | nil => intro i j a b hij ha; simp at ha
  | cons c rest ih =>
    intro i j a b hij ha hb hpa hpb
    match i, j with
    | 0, j' + 1 =>
      simp only [List.get?, Option.some.injEq] at ha
      subst ha
      have h1 := countP_pos_of_get p rest j' b (by simpa using hb) hpb
      have h2 : (c :: rest).countP p = rest.countP p + 1 := by
        simp [List.countP_cons, hpa]
      omega
    | i' + 1, j' + 1 =>
      have h1 := ih i' j' a b (by omega) (by simpa using ha) (by simpa using hb)
        hpa hpb
      by_cases hc : p c
      · have h2 : (c :: rest).countP p = rest.countP p + 1 := by
          simp [List.countP_cons, hc]
        omega
      · have h2 : (c :: rest).countP p = rest.countP p := by
          simp [List.countP_cons, hc]
        omega

/-- C7: the exponent split of `JsonhNumberParser::parse`. Part 1: for the
hexadecimal digit alphabet, the split index always points at an `e`/`E`
immediately followed by `+`/`-`. Part 2: for the decimal alphabet, on a lexeme
containing at most one `e`/`E` (every lexeme the tokenizer produces), the
split is at that last `e`/`E`: the found index holds `e`/`E` and no later
position does. Part 3: whatever the base alphabet, the result multiplies the
mantissa by ten raised to the exponent (`pow10`, the model of
`(10f64).powf`). Parts 4 and 5: the concrete values — `0x5e+3` is 5000
(mantissa 5, decimal exponent 3) and `0x5e3` is the hex integer 0x5e3 = 1507
(`F64.mk k 1` denotes the real `k`). -/
theorem C7_number_exponent_split :
    (∀ (ds : List Char) (i : Nat),
      find_exponent_index ds hex_digits = some i →
      ∃ c, ds.get? i = some c ∧ (c = 'e' ∨ c = 'E') ∧
        ∃ c2, ds.get? (i + 1) = some c2 ∧ (c2 = '+' ∨ c2 = '-')) ∧
    (∀ (ds : List Char) (i : Nat),
      ds.countP (fun c => decide (c = 'e' ∨ c = 'E')) ≤ 1 →
      find_exponent_index ds dec_digits = some i →
      (∃ c, ds.get? i = some c ∧ (c = 'e' ∨ c = 'E')) ∧
      (∀ j, i < j → ∀ c, ds.get? j = some c → ¬ (c = 'e' ∨ c = 'E'))) ∧
    (∀ (ds base_digits : List Char) (i : Nat) (m x : F64),
      find_exponent_index ds base_digits = some i →
      parse_fractional_number (ds.take i) base_digits = .ok m →
      parse_fractional_number (ds.drop (i + 1)) base_digits = .ok x →
      parse_fractional_number_with_exponent ds base_digits =
        .ok (m.mul (pow10 x))) ∧
    JsonhNumberParser.parse (("0x5e+3").toList) = .ok ⟨5000, 1⟩ ∧
    JsonhNumberParser.parse (("0x5e3").toList) = .ok ⟨1507, 1⟩ := by
  refine ⟨?_, ?_, ?_, by simp, by simp⟩
  · intro ds i h
    simp only [find_exponent_index] at h
    rw [if_pos (by simp [hex_digits])] at h
    obtain ⟨-, c, hc, he, c2, hc2, hs⟩ := hex_exponent_scan_spec ds 0 i h
    exact ⟨c, by simpa using hc, he, c2, by simpa using hc2, hs⟩
  · intro ds i hcount h
    simp only [find_exponent_index] at h
    rw [if_neg (by simp [dec_digits])] at h
    obtain ⟨⟨a, ha, hpa⟩, -⟩ := find_first_index_spec _ ds i h
    simp only [decide_eq_true_eq] at hpa
    refine ⟨⟨a, ha, hpa⟩, ?_⟩
    intro j hij c hc he
    have h2 := countP_two_le_of_get (fun c => decide (c = 'e' ∨ c = 'E'))
      ds i j a c hij ha hc (by simpa using hpa) (by simpa using he)
    omega
  · intro ds base_digits i m x h hm hx
    simp only [parse_fractional_number_with_exponent, h, hm, hx]

/-- C7 witness: the three universal parts applied to the concrete lexemes
`5e+3` (hexadecimal alphabet) and `5e3` (decimal alphabet). -/
theorem C7_witness :
    (∃ c, (("5e+3").toList).get? 1 = some c ∧ (c = 'e' ∨ c = 'E') ∧
      ∃ c2, (("5e+3").toList).get? 2 = some c2 ∧ (c2 = '+' ∨ c2 = '-')) ∧
    ((∃ c, (("5e3").toList).get? 1 = some c ∧ (c = 'e' ∨ c = 'E')) ∧
      (∀ j, 1 < j → ∀ c, (("5e3").toList).get? j = some c →
        ¬ (c = 'e' ∨ c = 'E'))) ∧
    parse_fractional_number_with_exponent (("5e+3").toList) hex_digits =
      .ok (F64.mul ⟨5, 1⟩ (pow10 ⟨3, 1⟩)) :=
  ⟨C7_number_exponent_split.1 (("5e+3").toList) 1 (by simp),
   C7_number_exponent_split.2.1 (("5e3").toList) 1 (by simp) (by simp),
   C7_number_exponent_split.2.2.1 (("5e+3").toList) hex_digits 1 ⟨5, 1⟩ ⟨3, 1⟩
     (by simp) (by simp) (by simp)⟩

/-- The tokens of a lifted scan are the scan's tokens. -/
theorem liftScan_toks (r : JsonhReader) (x : ScanOut) :
    (liftScan r x).toks = x.toks := by
  cases x; rfl

theorem goodBr_append {ts us : List Emitted} (h1 : GoodBr ts)
    (h2 : GoodBr us) : GoodBr (ts ++ us) := by
  intro e he hf ht
  rcases List.mem_append.mp he with h | h
  · exact h1 e h hf ht
  · exact h2 e h hf ht

theorem goodBr_of_allFalse {ts : List Emitted} (h : AllFalse ts) :
    GoodBr ts := by
  intro e he hf _
  rw [h e he] at hf
  cases hf

theorem allFalse_append {ts us : List Emitted} (h1 : AllFalse ts)
    (h2 : AllFalse us) : AllFalse (ts ++ us) := by
  intro e he
  rcases List.mem_append.mp he with h | h
  · exact h1 e h
  · exact h2 e h

theorem allFalse_single (t : JsonhToken) (n : Nat) :
    AllFalse [⟨t, false, n⟩] := by
  intro e he
  simp only [List.mem_singleton] at he
  subst he
  rfl

/-- All comment tokens of the comments-and-whitespace loop carry
`from_braceless = false`. -/
theorem allFalse_cw_loop (o : JsonhReaderOptions) :
    ∀ (fuel : Nat) (acc : List Emitted) (s : List Char), AllFalse acc →
      AllFalse (read_comments_and_whitespace_loop o fuel acc s).toks := by
  intro fuel
  induction fuel with
  | zero => intro acc s h; exact h
  | succ fuel ih =>
    intro acc s h
    simp only [read_comments_and_whitespace_loop]
    split
    · split
      · exact h
      · exact ih _ _ (allFalse_append h (allFalse_single _ _))
    · exact h

theorem allFalse_cw (o : JsonhReaderOptions) (s : List Char) :
    AllFalse (read_comments_and_whitespace o s).toks :=
  allFalse_cw_loop o _ [] s (by intro e he; cases he)

theorem allFalse_cw_eq {o : JsonhReaderOptions} {s : List Char}
    {ctoks : List Emitted} {cerr : Option String} {csrc : List Char}
    (h : read_comments_and_whitespace o s = ⟨ctoks, cerr, csrc⟩) :
    AllFalse ctoks := by
  have h2 := allFalse_cw o s
  rw [h] at h2
  exact h2

theorem allFalse_cwR_eq {r : JsonhReader} {ctoks : List Emitted}
    {cerr : Option String} {cst : JsonhReader}
    (h : cwR r = ⟨ctoks, cerr, cst⟩) : AllFalse ctoks := by
  have h2 := liftScan_toks r (read_comments_and_whitespace r.options r.source)
  rw [show liftScan r (read_comments_and_whitespace r.options r.source) =
    cwR r from rfl, h] at h2
  have h4 : ctoks = (read_comments_and_whitespace r.options r.source).toks := h2
  rw [h4]
  exact allFalse_cw _ _

/-- All tokens emitted by `read_property_name` carry
`from_braceless = false`. -/
theorem allFalse_pn (o : JsonhReaderOptions) (s : List Char) :
    AllFalse (read_property_name o s).toks := by
  simp only [read_property_name]
  split
  · intro e he; cases he
  · split
    · rename_i ctoks e csrc heq
      exact allFalse_cw_eq heq
    · rename_i ctoks csrc heq
      split
      · exact allFalse_cw_eq heq
      · exact allFalse_append (allFalse_cw_eq heq) (allFalse_single _ _)

theorem goodBr_single_false {t : JsonhToken} {n : Nat} :
    GoodBr [⟨t, false, n⟩] := by
  intro e he hf _
  simp only [List.mem_singleton] at he
  subst he
  cases hf

theorem goodBr_single_start {n : Nat} :
    GoodBr [⟨JsonhToken.new_empty .StartObject, true, n⟩] := by
  intro e he _ ht
  simp only [List.mem_singleton] at he
  subst he
  simp [JsonhToken.new_empty] at ht

theorem goodBr_single_end (r : JsonhReader) (h : r.source.length = 0) :
    GoodBr [emit (JsonhToken.new_empty .EndObject) true r] := by
  intro e he _ _
  simp only [List.mem_singleton] at he
  subst he
  exact h

theorem source_len_zero_of_peek_none {r : JsonhReader} (h : r.peek = none) :
    r.source.length = 0 := by
  rcases hs : r.source with _ | ⟨c, rest⟩
  · rfl
  · rw [JsonhReader.peek, hs] at h
    cases h

theorem prepend_eq_some {ts : List Emitted} {x : TOut} {out : Out}
    (h : prepend ts x = some out) :
    ∃ b, x = some b ∧ out = ⟨ts ++ b.toks, b.err, b.st⟩ := by
  cases x with
  | none => cases h
  | some b =>
    refine ⟨b, rfl, ?_⟩
    exact (Option.some.inj h).symm

theorem andThen_eq_some {x : TOut} {k : JsonhReader → TOut} {out : Out}
    (h : andThen x k = some out) :
    (∃ a e, x = some a ∧ a.err = some e ∧ out = a) ∨
    (∃ a b, x = some a ∧ a.err = none ∧ k a.st = some b ∧
      out = ⟨a.toks ++ b.toks, b.err, b.st⟩) := by
  cases x with
  | none => cases h
  | some a =>
    simp only [andThen] at h
    split at h
    · rename_i e herr
      exact Or.inl ⟨a, e, rfl, herr, (Option.some.inj h).symm⟩
    · rename_i herr
      split at h
      · cases h
      · rename_i b hk
        exact Or.inr ⟨a, b, rfl, herr, hk, (Option.some.inj h).symm⟩

theorem prepend_good {ts : List Emitted} {x : TOut} {out : Out}
    (h : prepend ts x = some out) (h1 : GoodBr ts)
    (h2 : ∀ b, x = some b → GoodBr b.toks) : GoodBr out.toks := by
  obtain ⟨b, hx, rfl⟩ := prepend_eq_some h
  exact goodBr_append h1 (h2 b hx)

theorem andThen_good {x : TOut} {k : JsonhReader → TOut} {out : Out}
    (h : andThen x k = some out)
    (h1 : ∀ a, x = some a → GoodBr a.toks)
    (h2 : ∀ st b, k st = some b → GoodBr b.toks) : GoodBr out.toks := by
  rcases andThen_eq_some h with ⟨a, e, hx, herr, hout⟩ |
    ⟨a, b, hx, herr, hk, hout⟩
  · rw [hout]
    exact h1 a hx
  · rw [hout]
    exact goodBr_append (h1 a hx) (h2 _ _ hk)

/-- The C5 master invariant, by induction on the fuel: every token list
produced by any of the mutually recursive readers satisfies `GoodBr` (braceless
`EndObject` tokens are emitted only with the source exhausted), where the
initial-token arguments of `read_braceless_object` and `read_property` are
assumed `GoodBr`. -/
theorem goodBr_all : ∀ fuel : Nat,
    (∀ r out, read_element fuel r = some out → GoodBr out.toks) ∧
    (∀ r out, read_object fuel r = some out → GoodBr out.toks) ∧
    (∀ r out, read_object_loop fuel r = some out → GoodBr out.toks) ∧
    (∀ pnt r out, (∀ ts, pnt = some ts → GoodBr ts) →
      read_braceless_object fuel pnt r = some out → GoodBr out.toks) ∧
    (∀ r out, read_braceless_object_loop fuel r = some out →
      GoodBr out.toks) ∧
    (∀ tok r out,
      read_braceless_object_or_end_of_primitive fuel tok r = some out →
      GoodBr out.toks) ∧
    (∀ pnt r out, (∀ ts, pnt = some ts → GoodBr ts) →
      read_property fuel pnt r = some out → GoodBr out.toks) ∧
    (∀ r out, read_array fuel r = some out → GoodBr out.toks) ∧
    (∀ r out, read_array_loop fuel r = some out → GoodBr out.toks) ∧
    (∀ r out, read_item fuel r = some out → GoodBr out.toks) := by
  intro fuel
  induction fuel with
  | zero =>
    exact ⟨fun r out h => Option.noConfusion h,
      fun r out h => Option.noConfusion h,
      fun r out h => Option.noConfusion h,
      fun pnt r out hg h => Option.noConfusion h,
      fun r out h => Option.noConfusion h,
      fun tok r out h => Option.noConfusion h,
      fun pnt r out hg h => Option.noConfusion h,
      fun r out h => Option.noConfusion h,
      fun r out h => Option.noConfusion h,
      fun r out h => Option.noConfusion h⟩
  | succ fuel ih =>
    obtain ⟨ihE, ihO, ihOL, ihB, ihBL, ihBE, ihP, ihA, ihAL, ihI⟩ := ih
    refine ⟨?_, ?_, ?_, ?_, ?_, ?_, ?_, ?_, ?_, ?_⟩
    · -- read_element
      intro r out h
      simp only [read_element] at h
      split at h
      · rename_i ctoks e cst heq
        obtain rfl := Option.some.inj h
        exact goodBr_of_allFalse (allFalse_cwR_eq heq)
      · rename_i ctoks cst heq
        split at h
        · obtain rfl := Option.some.inj h
          exact goodBr_of_allFalse (allFalse_cwR_eq heq)
        · rename_i next hpk
          split at h
          · exact prepend_good h (goodBr_of_allFalse (allFalse_cwR_eq heq))
              (fun b hb => ihO cst b hb)
          · split at h
            · exact prepend_good h (goodBr_of_allFalse (allFalse_cwR_eq heq))
                (fun b hb => ihA cst b hb)
            · split at h
              · rename_i e s1 hpe
                obtain rfl := Option.some.inj h
                exact goodBr_of_allFalse (allFalse_cwR_eq heq)
              · rename_i tok s1 hpe
                exact prepend_good h
                  (goodBr_of_allFalse (allFalse_cwR_eq heq))
                  (fun b hb => ihBE tok _ b hb)
    · -- read_object
      intro r out h
      simp only [read_object] at h
      split at h
      · exact ihB none r out (fun ts hts => Option.noConfusion hts) h
      · rename_i s1 heq
        split at h
        · obtain rfl := Option.some.inj h
          exact goodBr_single_false
        · exact prepend_good h goodBr_single_false
            (fun b hb => ihOL _ b hb)
    · -- read_object_loop
      intro r out h
      simp only [read_object_loop] at h
      split at h
      · rename_i ctoks e cst heq
        obtain rfl := Option.some.inj h
        exact goodBr_of_allFalse (allFalse_cwR_eq heq)
      · rename_i ctoks cst heq
        split at h
        · split at h
          · obtain rfl := Option.some.inj h
            exact goodBr_append (goodBr_of_allFalse (allFalse_cwR_eq heq))
              goodBr_single_false
          · obtain rfl := Option.some.inj h
            exact goodBr_of_allFalse (allFalse_cwR_eq heq)
        · rename_i next hpk
          split at h
          · obtain rfl := Option.some.inj h
            exact goodBr_append (goodBr_of_allFalse (allFalse_cwR_eq heq))
              goodBr_single_false
          · refine prepend_good h
              (goodBr_of_allFalse (allFalse_cwR_eq heq)) ?_
            intro b hb
            exact andThen_good hb
              (fun a ha => ihP none cst a
                (fun ts hts => Option.noConfusion hts) ha)
              (fun st b2 hb2 => ihOL st b2 hb2)
    · -- read_braceless_object
      intro pnt r out hg h
      simp only [read_braceless_object] at h
      split at h
      · obtain rfl := Option.some.inj h
        exact goodBr_single_start
      · split at h
        · rename_i ts
          refine prepend_good h goodBr_single_start ?_
          intro b hb
          exact andThen_good hb
            (fun a ha => ihP (some ts) _ a
              (fun ts2 hts2 => by
                obtain rfl := Option.some.inj hts2
                exact hg ts rfl) ha)
            (fun st b2 hb2 => ihBL st b2 hb2)
        · exact prepend_good h goodBr_single_start
            (fun b hb => ihBL _ b hb)
    · -- read_braceless_object_loop
      intro r out h
      simp only [read_braceless_object_loop] at h
      split at h
      · rename_i ctoks e cst heq
        obtain rfl := Option.some.inj h
        exact goodBr_of_allFalse (allFalse_cwR_eq heq)
      · rename_i ctoks cst heq
        split at h
        · rename_i hpk
          obtain rfl := Option.some.inj h
          refine goodBr_append (goodBr_of_allFalse (allFalse_cwR_eq heq)) ?_
          exact goodBr_single_end _ (source_len_zero_of_peek_none hpk)
        · refine prepend_good h
            (goodBr_of_allFalse (allFalse_cwR_eq heq)) ?_
          intro b hb
          exact andThen_good hb
            (fun a ha => ihP none cst a
              (fun ts hts => Option.noConfusion hts) ha)
            (fun st b2 hb2 => ihBL st b2 hb2)
    · -- read_braceless_object_or_end_of_primitive
      intro tok r out h
      simp only [read_braceless_object_or_end_of_primitive] at h
      split at h
      · obtain rfl := Option.some.inj h
        intro e he hf _
        cases he
      · rename_i ctoks cst heq
        split at h
        · obtain rfl := Option.some.inj h
          intro e he hf ht
          rcases List.mem_cons.mp he with rfl | hmem
          · cases hf
          · rw [allFalse_cwR_eq heq e hmem] at hf
            cases hf
        · rename_i s1 hro
          exact ihB _ _ out
            (fun ts hts => by
              obtain rfl := Option.some.inj hts
              exact goodBr_append (goodBr_of_allFalse (allFalse_cwR_eq heq))
                goodBr_single_false) h
    · -- read_property
      intro pnt r out hg h
      cases pnt with
      | some ts =>
        simp only [read_property] at h
        refine prepend_good h (hg ts rfl) ?_
        intro b hb
        split at hb
        · rename_i c1 e c1st hcw
          obtain rfl := Option.some.inj hb
          exact goodBr_of_allFalse (allFalse_cwR_eq hcw)
        · rename_i c1 c1st hcw
          refine prepend_good hb
            (goodBr_of_allFalse (allFalse_cwR_eq hcw)) ?_
          intro b2 hb2
          refine andThen_good hb2 (fun a ha => ihE c1st a ha) ?_
          intro st b3 hb3
          split at hb3
          · rename_i c2 e c2st hcw2
            obtain rfl := Option.some.inj hb3
            exact goodBr_of_allFalse (allFalse_cwR_eq hcw2)
          · rename_i c2 c2st hcw2
            obtain rfl := Option.some.inj hb3
            exact goodBr_of_allFalse (allFalse_cwR_eq hcw2)
      | none =>
        simp only [read_property] at h
        split at h
        · rename_i ftoks e fst heq
          obtain rfl := Option.some.inj h
          have h2 := liftScan_toks r (read_property_name r.options r.source)
          rw [heq] at h2
          have h4 : ftoks = (read_property_name r.options r.source).toks := h2
          intro e2 he2 hf _
          rw [h4] at he2
          rw [allFalse_pn r.options r.source e2 he2] at hf
          cases hf
        · rename_i ftoks fst heq
          have h2 := liftScan_toks r (read_property_name r.options r.source)
          rw [heq] at h2
          have h4 : ftoks = (read_property_name r.options r.source).toks := h2
          refine prepend_good h ?_ ?_
          · intro e2 he2 hf _
            rw [h4] at he2
            rw [allFalse_pn r.options r.source e2 he2] at hf
            cases hf
          · intro b hb
            split at hb
            · rename_i c1 e c1st hcw
              obtain rfl := Option.some.inj hb
              exact goodBr_of_allFalse (allFalse_cwR_eq hcw)
            · rename_i c1 c1st hcw
              refine prepend_good hb
                (goodBr_of_allFalse (allFalse_cwR_eq hcw)) ?_
              intro b2 hb2
              refine andThen_good hb2 (fun a ha => ihE c1st a ha) ?_
              intro st b3 hb3
              split at hb3
              · rename_i c2 e c2st hcw2
                obtain rfl := Option.some.inj hb3
                exact goodBr_of_allFalse (allFalse_cwR_eq hcw2)
              · rename_i c2 c2st hcw2
                obtain rfl := Option.some.inj hb3
                exact goodBr_of_allFalse (allFalse_cwR_eq hcw2)
    · -- read_array
      intro r out h
      simp only [read_array] at h
      split at h
      · obtain rfl := Option.some.inj h
        intro e he hf _
        cases he
      · rename_i s1 heq
        split at h
        · obtain rfl := Option.some.inj h
          exact goodBr_single_false
        · exact prepend_good h goodBr_single_false
            (fun b hb => ihAL _ b hb)
    · -- read_array_loop
      intro r out h
      simp only [read_array_loop] at h
      split at h
      · rename_i ctoks e cst heq
        obtain rfl := Option.some.inj h
        exact goodBr_of_allFalse (allFalse_cwR_eq heq)
      · rename_i ctoks cst heq
        split at h
        · split at h
          · obtain rfl := Option.some.inj h
            exact goodBr_append (goodBr_of_allFalse (allFalse_cwR_eq heq))
              goodBr_single_false
          · obtain rfl := Option.some.inj h
            exact goodBr_of_allFalse (allFalse_cwR_eq heq)
        · rename_i next hpk
          split at h
          · obtain rfl := Option.some.inj h
            exact goodBr_append (goodBr_of_allFalse (allFalse_cwR_eq heq))
              goodBr_single_false
          · refine prepend_good h
              (goodBr_of_allFalse (allFalse_cwR_eq heq)) ?_
            intro b hb
            exact andThen_good hb (fun a ha => ihI cst a ha)
              (fun st b2 hb2 => ihAL st b2 hb2)
    · -- read_item
      intro r out h
      simp only [read_item] at h
      refine andThen_good h (fun a ha => ihE r a ha) ?_
      intro st b hb
      split at hb
      · rename_i c2 e c2st hcw
        obtain rfl := Option.some.inj hb
        exact goodBr_of_allFalse (allFalse_cwR_eq hcw)
      · rename_i c2 c2st hcw
        obtain rfl := Option.some.inj hb
        exact goodBr_of_allFalse (allFalse_cwR_eq hcw)

/-- C5 counterexample: braceless objects CAN nest inside arrays. On the input
`[a:1` with `incomplete_inputs` enabled, `read_element` emits a braceless
StartObject (the `from_braceless` instrumentation marks the emission site in
`read_braceless_object`) strictly inside an array — at nesting depth 1, not at
the top level of the input — because `read_item` calls `read_element`, whose
primitive path promotes `a` into a braceless-object property name upon seeing
`:` (lines 447-483). The stream is StartArray, StartObject(braceless),
PropertyName, Number, EndObject(braceless), EndArray with no error. -/
theorem C5_counterexample_braceless_nested_in_array :
    (read_element 100
        (JsonhReader.from_str (("[a:1").toList) incomplete_options)).map
      (fun out => (out.toks.map (fun e => (e.tok.json_type, e.from_braceless)),
        out.err)) =
    some ([(.StartArray, false), (.StartObject, true), (.PropertyName, false),
      (.Number, false), (.EndObject, true), (.EndArray, false)], none) := by
  simp

/-- C5 (amended): the end-of-input half of the claim holds — in every token
stream produced by `read_element`, at any fuel and from any reader state, a
braceless-object EndObject token (`from_braceless = true`, emitted at line 432
of `read_braceless_object`) is emitted only when the source is exhausted
(`remaining = 0` characters left at the emission site). The nesting half of
the original claim is refuted by the counterexample. -/
theorem C5_amended_braceless_end_at_eof :
    ∀ (fuel : Nat) (r : JsonhReader) (out : Out),
      read_element fuel r = some out →
      ∀ e ∈ out.toks, e.from_braceless = true →
        e.tok.json_type = .EndObject → e.remaining = 0 :=
  fun fuel r out h => (goodBr_all fuel).1 r out h

/-- C5 witness: the amended theorem applied to the concrete run of
`read_element` on `a:1` (a top-level braceless object), whose final braceless
EndObject token indeed carries `remaining = 0`. -/
theorem C5_amended_witness :
    (⟨JsonhToken.new_empty .EndObject, true, 0⟩ : Emitted).remaining = 0 :=
  C5_amended_braceless_end_at_eof 10
    (JsonhReader.from_str (("a:1").toList) JsonhReaderOptions.new)
    ⟨[⟨JsonhToken.new_empty .StartObject, true, 1⟩,
      ⟨JsonhToken.new .PropertyName ['a'], false, 1⟩,
      ⟨JsonhToken.new .Number ['1'], false, 0⟩,
      ⟨JsonhToken.new_empty .EndObject, true, 0⟩],
     none,
     ⟨[], JsonhReaderOptions.new, 0, 0⟩⟩
    (by simp)
    ⟨JsonhToken.new_empty .EndObject, true, 0⟩
    (by simp) rfl rfl

/-- Transport a literal-string disequality along an equation. -/
theorem errD_of_eq {lit e : String} (h : lit = e)
    (hD : lit ≠ "Exceeded max depth") : e ≠ "Exceeded max depth" :=
  h ▸ hD

theorem pair_ok_ne_err {α : Type} {v : α} {s : List Char} {e : String}
    {s' : List Char}
    (h : ((Except.ok v : Except String α), s) = (.error e, s')) : False :=
  Except.noConfusion (congrArg Prod.fst h)

theorem pair_err_lit {α : Type} {lit e : String} {s s' : List Char}
    (h : ((Except.error lit : Except String α), s) = (.error e, s')) :
    lit = e :=
  Except.error.inj (congrArg Prod.fst h)

/-- `utf16_surrogates_to_code_point` never fails with the max-depth error. -/
theorem errD_utf16 {hi lo : Nat} {e : String}
    (h : utf16_surrogates_to_code_point hi lo = .error e) :
    e ≠ "Exceeded max depth" := by
  simp only [utf16_surrogates_to_code_point] at h
  split at h
  · exact errD_of_eq (Except.error.inj h) (by decide)
  · split at h
    · exact errD_of_eq (Except.error.inj h) (by decide)
    · exact fun _ => Except.noConfusion h

/-- `read_hex_sequence` never fails with the max-depth error. -/
theorem errD_read_hex_sequence :
    ∀ (len value : Nat) (s : List Char) {e : String} {s' : List Char},
      read_hex_sequence len value s = (.error e, s') →
      e ≠ "Exceeded max depth" := by
  intro len
  induction len with
  | zero =>
    intro value s e s' h
    exact fun _ => pair_ok_ne_err h
  | succ n ih =>
    intro value s e s' h
    cases s with
    | nil =>
      simp only [read_hex_sequence] at h
      exact errD_of_eq (pair_err_lit h) (by decide)
    | cons c rest =>
      simp only [read_hex_sequence] at h
      split at h
      · exact ih _ _ h
      · exact errD_of_eq (pair_err_lit h) (by decide)

/-- `read_hex_escape_sequence_pending` never fails with the max-depth
error. -/
theorem errD_read_hex_escape_sequence_pending {len hi : Nat} {s : List Char}
    {e : String} {s' : List Char}
    (h : read_hex_escape_sequence_pending len hi s = (.error e, s')) :
    e ≠ "Exceeded max depth" := by
  simp only [read_hex_escape_sequence_pending] at h
  split at h
  · rename_i e0 s0 heq
    exact errD_of_eq (pair_err_lit h) (errD_read_hex_sequence _ _ _ heq)
  · rename_i cp s0 heq
    split at h
    · rename_i e0 heq2
      exact errD_of_eq (pair_err_lit h) (errD_utf16 heq2)
    · rename_i comb heq2
      split at h
      · exact fun _ => pair_ok_ne_err h
      · exact errD_of_eq (pair_err_lit h) (by decide)

/-- `read_escape_sequence_pending` never fails with the max-depth error. -/
theorem errD_read_escape_sequence_pending {hi : Nat} {s : List Char}
    {e : String} {s' : List Char}
    (h : read_escape_sequence_pending hi s = (.error e, s')) :
    e ≠ "Exceeded max depth" := by
  cases s with
  | nil =>
    simp only [read_escape_sequence_pending] at h
    exact errD_of_eq (pair_err_lit h) (by decide)
  | cons c rest =>
    simp only [read_escape_sequence_pending] at h
    split at h
    · exact errD_read_hex_escape_sequence_pending h
    · split at h
      · exact errD_read_hex_escape_sequence_pending h
      · split at h
        · exact errD_read_hex_escape_sequence_pending h
        · exact errD_of_eq (pair_err_lit h) (by decide)

/-- `read_hex_escape_sequence` never fails with the max-depth error. -/
theorem errD_read_hex_escape_sequence {len : Nat} {s : List Char}
    {e : String} {s' : List Char}
    (h : read_hex_escape_sequence len s = (.error e, s')) :
    e ≠ "Exceeded max depth" := by
  simp only [read_hex_escape_sequence] at h
  split at h
  · rename_i e0 s0 heq
    exact errD_of_eq (pair_err_lit h) (errD_read_hex_sequence _ _ _ heq)
  · rename_i cp s0 heq
    split at h
    · split at h
      · exact errD_read_escape_sequence_pending h
      · split at h
        · exact fun _ => pair_ok_ne_err h
        · exact errD_of_eq (pair_err_lit h) (by decide)
    · split at h
      · exact fun _ => pair_ok_ne_err h
      · exact errD_of_eq (pair_err_lit h) (by decide)

/-- `read_escape_sequence` never fails with the max-depth error. -/
theorem errD_read_escape_sequence {s : List Char} {e : String}
    {s' : List Char} (h : read_escape_sequence s = (.error e, s')) :
    e ≠ "Exceeded max depth" := by
  rw [read_escape_sequence.eq_def] at h
  split at h
  · exact errD_of_eq (pair_err_lit h) (by decide)
  · rename_i c rest
    by_cases h1 : c = '\\'
    · rw [if_pos h1] at h
      exact fun _ => pair_ok_ne_err h
    · rw [if_neg h1] at h
      by_cases h2 : c = 'b'
      · rw [if_pos h2] at h
        exact fun _ => pair_ok_ne_err h
      · rw [if_neg h2] at h
        by_cases h3 : c = 'f'
        · rw [if_pos h3] at h
          exact fun _ => pair_ok_ne_err h
        · rw [if_neg h3] at h
          by_cases h4 : c = 'n'
          · rw [if_pos h4] at h
            exact fun _ => pair_ok_ne_err h
          · rw [if_neg h4] at h
            by_cases h5 : c = 'r'
            · rw [if_pos h5] at h
              exact fun _ => pair_ok_ne_err h
            · rw [if_neg h5] at h
              by_cases h6 : c = 't'
              · rw [if_pos h6] at h
                exact fun _ => pair_ok_ne_err h
              · rw [if_neg h6] at h
                by_cases h7 : c = 'v'
                · rw [if_pos h7] at h
                  exact fun _ => pair_ok_ne_err h
                · rw [if_neg h7] at h
                  by_cases h8 : c = '0'
                  · rw [if_pos h8] at h
                    exact fun _ => pair_ok_ne_err h
                  · rw [if_neg h8] at h
                    by_cases h9 : c = 'a'
                    · rw [if_pos h9] at h
                      exact fun _ => pair_ok_ne_err h
                    · rw [if_neg h9] at h
                      by_cases h10 : c = 'e'
                      · rw [if_pos h10] at h
                        exact fun _ => pair_ok_ne_err h
                      · rw [if_neg h10] at h
                        by_cases h11 : c = 'u'
                        · rw [if_pos h11] at h
                          exact errD_read_hex_escape_sequence h
                        · rw [if_neg h11] at h
                          by_cases h12 : c = 'x'
                          · rw [if_pos h12] at h
                            exact errD_read_hex_escape_sequence h
                          · rw [if_neg h12] at h
                            by_cases h13 : c = 'U'
                            · rw [if_pos h13] at h
                              exact errD_read_hex_escape_sequence h
                            · rw [if_neg h13] at h
                              by_cases h14 : NEWLINE_CHARS.contains c = true
                              · rw [if_pos h14] at h
                                by_cases h15 : c = Char.ofNat 13
                                · rw [if_pos h15] at h
                                  exact fun _ => pair_ok_ne_err h
                                · rw [if_neg h15] at h
                                  exact fun _ => pair_ok_ne_err h
                              · rw [if_neg h14] at h
                                exact fun _ => pair_ok_ne_err h

/-- `read_comment_loop` never fails with the max-depth error. -/
theorem errD_read_comment_loop (o : JsonhReaderOptions) (bc : Bool)
    (nest : Nat) :
    ∀ (fuel : Nat) (cb s : List Char) {e : String} {s' : List Char},
      read_comment_loop o bc nest fuel cb s = (.error e, s') →
      e ≠ "Exceeded max depth" := by
  intro fuel
  induction fuel with
  | zero =>
    intro cb s e s' h
    exact errD_of_eq (pair_err_lit h) (by decide)
  | succ n ih =>
    intro cb s e s' h
    cases s with
    | nil =>
      simp only [read_comment_loop] at h
      split at h
      · exact errD_of_eq (pair_err_lit h) (by decide)
      · exact fun _ => pair_ok_ne_err h
    | cons c rest =>
      simp only [read_comment_loop] at h
      split at h
      · split at h
        · split at h
          · split at h
            · exact ih _ _ h
            · exact fun _ => pair_ok_ne_err h
          · split at h
            · exact fun _ => pair_ok_ne_err h
            · exact ih _ _ h
        · exact ih _ _ h
      · split at h
        · exact fun _ => pair_ok_ne_err h
        · exact ih _ _ h

/-- `read_comment` never fails with the max-depth error. -/
theorem errD_read_comment {o : JsonhReaderOptions} {s : List Char}
    {e : String} {s' : List Char}
    (h : read_comment o s = (.error e, s')) : e ≠ "Exceeded max depth" := by
  simp only [read_comment] at h
  split at h
  · exact errD_read_comment_loop o false 0 _ _ _ h
  · split at h
    · exact errD_of_eq (pair_err_lit h) (by decide)
    · split at h
      · exact errD_read_comment_loop o false 0 _ _ _ h
      · split at h
        · exact errD_read_comment_loop o true 0 _ _ _ h
        · split at h
          · split at h
            · exact errD_read_comment_loop o true _ _ _ _ h
            · exact errD_of_eq (pair_err_lit h) (by decide)
          · exact errD_of_eq (pair_err_lit h) (by decide)

/-- The comments-and-whitespace loop never fails with the max-depth error. -/
theorem errD_cw_loop (o : JsonhReaderOptions) :
    ∀ (fuel : Nat) (acc : List Emitted) (s : List Char) {e : String},
      (read_comments_and_whitespace_loop o fuel acc s).err = some e →
      e ≠ "Exceeded max depth" := by
  intro fuel
  induction fuel with
  | zero =>
    intro acc s e h
    exact errD_of_eq (Option.some.inj h) (by decide)
  | succ n ih =>
    intro acc s e h
    simp only [read_comments_and_whitespace_loop] at h
    split at h
    · split at h
      · rename_i e2 s2 heq
        exact errD_of_eq (Option.some.inj h) (errD_read_comment heq)
      · exact ih _ _ h
    · exact Option.noConfusion h

/-- `read_comments_and_whitespace` never fails with the max-depth error. -/
theorem errD_cw {o : JsonhReaderOptions} {s : List Char} {e : String}
    (h : (read_comments_and_whitespace o s).err = some e) :
    e ≠ "Exceeded max depth" :=
  errD_cw_loop o _ _ _ h

/-- The error of a lifted scan is the scan's error. -/
theorem liftScan_err (r : JsonhReader) (x : ScanOut) :
    (liftScan r x).err = x.err := by
  cases x; rfl

/-- The state of a lifted scan keeps every reader field but the source. -/
theorem liftScan_st (r : JsonhReader) (x : ScanOut) :
    (liftScan r x).st = { r with source := x.src } := by
  cases x; rfl

/-- `cwR` never fails with the max-depth error. -/
theorem errD_cwR_eq {r : JsonhReader} {ctoks : List Emitted} {e : String}
    {cst : JsonhReader} (heq : cwR r = ⟨ctoks, some e, cst⟩) :
    e ≠ "Exceeded max depth" := by
  have h2 := liftScan_err r (read_comments_and_whitespace r.options r.source)
  rw [show liftScan r (read_comments_and_whitespace r.options r.source) =
    cwR r from rfl, heq] at h2
  have h3 : (read_comments_and_whitespace r.options r.source).err = some e :=
    h2.symm
  exact errD_cw h3

/-- `cwR` changes no reader field but the source. -/
theorem cwR_eq_state {r : JsonhReader} {ctoks : List Emitted}
    {cerr : Option String} {cst : JsonhReader}
    (heq : cwR r = ⟨ctoks, cerr, cst⟩) :
    cst.depth = r.depth ∧ cst.options = r.options := by
  rcases hx : read_comments_and_whitespace r.options r.source with ⟨xt, xe, xs⟩
  have h2 : cwR r = ⟨xt, xe, { r with source := xs }⟩ := by
    simp only [cwR, liftScan, hx]
  rw [heq] at h2
  injection h2 with a b c
  subst c
  exact ⟨rfl, rfl⟩

/-- The quoteless-string loop never fails with the max-depth error. -/
theorem errD_read_quoteless_string_loop (o : JsonhReaderOptions) (iv : Bool) :
    ∀ (fuel : Nat) (b : List Char) (lit : Bool) (s : List Char) {e : String}
      {s' : List Char},
      read_quoteless_string_loop o iv fuel b lit s = (.error e, s') →
      e ≠ "Exceeded max depth" := by
  intro fuel
  induction fuel with
  | zero =>
    intro b lit s e s' h
    exact errD_of_eq (pair_err_lit h) (by decide)
  | succ n ih =>
    intro b lit s e s' h
    simp only [read_quoteless_string_loop] at h
    repeat'
      first
        | exact ih _ _ _ h
        | exact fun _ => pair_ok_ne_err h
        | exact errD_of_eq (pair_err_lit h) (by decide)
        | (rename_i heq
           exact errD_of_eq (pair_err_lit h) (errD_read_escape_sequence heq))
        | split at h

/-- `read_quoteless_string` never fails with the max-depth error. -/
theorem errD_read_quoteless_string {o : JsonhReaderOptions}
    {ic : List Char} {iv : Bool} {s : List Char} {e : String}
    {s' : List Char} (h : read_quoteless_string o ic iv s = (.error e, s')) :
    e ≠ "Exceeded max depth" := by
  simp only [read_quoteless_string] at h
  repeat'
    first
      | exact fun _ => pair_ok_ne_err h
      | exact errD_of_eq (pair_err_lit h) (by decide)
      | (rename_i heq
         exact errD_of_eq (pair_err_lit h)
           (errD_read_quoteless_string_loop o iv _ _ _ _ heq))
      | split at h

/-- `read_number_or_quoteless_string` never fails with the max-depth
error. -/
theorem errD_read_number_or_quoteless_string {o : JsonhReaderOptions}
    {s : List Char} {e : String} {s' : List Char}
    (h : read_number_or_quoteless_string o s = (.error e, s')) :
    e ≠ "Exceeded max depth" := by
  simp only [read_number_or_quoteless_string] at h
  repeat'
    first
      | exact errD_read_quoteless_string h
      | exact fun _ => pair_ok_ne_err h
      | split at h

/-- The quoted-string loop never fails with the max-depth error. -/
theorem errD_read_string_loop (sqc : Nat) (sq : Char) (iv : Bool) :
    ∀ (fuel eqc : Nat) (sb s : List Char) {e : String} {s' : List Char},
      read_string_loop sqc sq iv fuel eqc sb s = (.error e, s') →
      e ≠ "Exceeded max depth" := by
  intro fuel
  induction fuel with
  | zero =>
    intro eqc sb s e s' h
    exact errD_of_eq (pair_err_lit h) (by decide)
  | succ n ih =>
    intro eqc sb s e s' h
    simp only [read_string_loop] at h
    repeat'
      first
        | exact ih _ _ _ h
        | exact fun _ => pair_ok_ne_err h
        | exact errD_of_eq (pair_err_lit h) (by decide)
        | (rename_i heq
           exact errD_of_eq (pair_err_lit h) (errD_read_escape_sequence heq))
        | split at h

/-- `read_string_quoted` never fails with the max-depth error. -/
theorem errD_read_string_quoted {o : JsonhReaderOptions} {iv : Bool}
    {sq : Char} {s : List Char} {e : String} {s' : List Char}
    (h : read_string_quoted o iv sq s = (.error e, s')) :
    e ≠ "Exceeded max depth" := by
  simp only [read_string_quoted] at h
  repeat'
    first
      | exact fun _ => pair_ok_ne_err h
      | (rename_i heq
         exact errD_of_eq (pair_err_lit h)
           (errD_read_string_loop _ _ _ _ _ _ _ heq))
      | split at h

/-- `read_string_after_verbatim` never fails with the max-depth error. -/
theorem errD_read_string_after_verbatim {o : JsonhReaderOptions} {iv : Bool}
    {s : List Char} {e : String} {s' : List Char}
    (h : read_string_after_verbatim o iv s = (.error e, s')) :
    e ≠ "Exceeded max depth" := by
  simp only [read_string_after_verbatim] at h
  repeat'
    first
      | exact errD_read_quoteless_string h
      | exact errD_read_string_quoted h
      | exact errD_of_eq (pair_err_lit h) (by decide)
      | split at h

/-- `read_string` never fails with the max-depth error. -/
theorem errD_read_string {o : JsonhReaderOptions} {s : List Char}
    {e : String} {s' : List Char}
    (h : read_string o s = (.error e, s')) : e ≠ "Exceeded max depth" := by
  simp only [read_string] at h
  repeat'
    first
      | exact errD_read_string_after_verbatim h
      | split at h

/-- `read_primitive_element` never fails with the max-depth error. -/
theorem errD_read_primitive_element {o : JsonhReaderOptions} {s : List Char}
    {e : String} {s' : List Char}
    (h : read_primitive_element o s = (.error e, s')) :
    e ≠ "Exceeded max depth" := by
  simp only [read_primitive_element] at h
  repeat'
    first
      | exact errD_read_number_or_quoteless_string h
      | exact errD_read_string h
      | exact errD_read_quoteless_string h
      | exact errD_of_eq (pair_err_lit h) (by decide)
      | split at h

/-- `read_property_name` never fails with the max-depth error. -/
theorem errD_read_property_name {o : JsonhReaderOptions} {s : List Char}
    {e : String} (h : (read_property_name o s).err = some e) :
    e ≠ "Exceeded max depth" := by
  simp only [read_property_name] at h
  repeat'
    first
      | exact Option.noConfusion h
      | exact errD_of_eq (Option.some.inj h) (by decide)
      | (rename_i heq
         exact errD_of_eq (Option.some.inj h) (errD_read_string heq))
      | (rename_i heq
         exact errD_of_eq (Option.some.inj h) (errD_cw (by rw [heq])))
      | split at h

/-- A `lastStart` tail survives prefixing. -/
theorem lastStart_append {ts us : List Emitted} (h : lastStart us) :
    lastStart (ts ++ us) := by
  obtain ⟨e, he, hty⟩ := h
  refine ⟨e, ?_, hty⟩
  rw [List.getLast?_append, he]
  rfl

/-- The C10 master invariant, by induction on the fuel, for every reader in
the mutual block. Under the precondition `depth ≤ max_depth` (which holds for
fresh readers when `0 ≤ max_depth` and is preserved at every recursive call
site): on success the reader returns to its entry depth (loops to entry depth
minus one) with unchanged options, and on the error "Exceeded max depth" the
final depth is exactly `max_depth + 1` and the token stream already ends in
the corresponding StartObject or StartArray token. -/
theorem depth_all : ∀ fuel : Nat,
    (∀ r out, r.depth ≤ r.options.max_depth → read_element fuel r = some out →
      (out.err = none → out.st.options = r.options ∧ out.st.depth = r.depth) ∧
      (out.err = some "Exceeded max depth" →
        out.st.depth = r.options.max_depth + 1 ∧ lastStart out.toks)) ∧
    (∀ r out, r.depth ≤ r.options.max_depth → read_object fuel r = some out →
      (out.err = none → out.st.options = r.options ∧ out.st.depth = r.depth) ∧
      (out.err = some "Exceeded max depth" →
        out.st.depth = r.options.max_depth + 1 ∧ lastStart out.toks)) ∧
    (∀ r out, r.depth ≤ r.options.max_depth →
      read_object_loop fuel r = some out →
      (out.err = none →
        out.st.options = r.options ∧ out.st.depth = r.depth - 1) ∧
      (out.err = some "Exceeded max depth" →
        out.st.depth = r.options.max_depth + 1 ∧ lastStart out.toks)) ∧
    (∀ pnt r out, r.depth ≤ r.options.max_depth →
      read_braceless_object fuel pnt r = some out →
      (out.err = none → out.st.options = r.options ∧ out.st.depth = r.depth) ∧
      (out.err = some "Exceeded max depth" →
        out.st.depth = r.options.max_depth + 1 ∧ lastStart out.toks)) ∧
    (∀ r out, r.depth ≤ r.options.max_depth →
      read_braceless_object_loop fuel r = some out →
      (out.err = none →
        out.st.options = r.options ∧ out.st.depth = r.depth - 1) ∧
      (out.err = some "Exceeded max depth" →
        out.st.depth = r.options.max_depth + 1 ∧ lastStart out.toks)) ∧
    (∀ tok r out, r.depth ≤ r.options.max_depth →
      read_braceless_object_or_end_of_primitive fuel tok r = some out →
      (out.err = none → out.st.options = r.options ∧ out.st.depth = r.depth) ∧
      (out.err = some "Exceeded max depth" →
        out.st.depth = r.options.max_depth + 1 ∧ lastStart out.toks)) ∧
    (∀ pnt r out, r.depth ≤ r.options.max_depth →
      read_property fuel pnt r = some out →
      (out.err = none → out.st.options = r.options ∧ out.st.depth = r.depth) ∧
      (out.err = some "Exceeded max depth" →
        out.st.depth = r.options.max_depth + 1 ∧ lastStart out.toks)) ∧
    (∀ r out, r.depth ≤ r.options.max_depth → read_array fuel r = some out →
      (out.err = none → out.st.options = r.options ∧ out.st.depth = r.depth) ∧
      (out.err = some "Exceeded max depth" →
        out.st.depth = r.options.max_depth + 1 ∧ lastStart out.toks)) ∧
    (∀ r out, r.depth ≤ r.options.max_depth →
      read_array_loop fuel r = some out →
      (out.err = none →
        out.st.options = r.options ∧ out.st.depth = r.depth - 1) ∧
      (out.err = some "Exceeded max depth" →
        out.st.depth = r.options.max_depth + 1 ∧ lastStart out.toks)) ∧
    (∀ r out, r.depth ≤ r.options.max_depth → read_item fuel r = some out →
      (out.err = none → out.st.options = r.options ∧ out.st.depth = r.depth) ∧
      (out.err = some "Exceeded max depth" →
        out.st.depth = r.options.max_depth + 1 ∧ lastStart out.toks)) := by
  intro fuel
  induction fuel with
  | zero =>
    exact ⟨fun r out _ h => Option.noConfusion h,
      fun r out _ h => Option.noConfusion h,
      fun r out _ h => Option.noConfusion h,
      fun pnt r out _ h => Option.noConfusion h,
      fun r out _ h => Option.noConfusion h,
      fun tok r out _ h => Option.noConfusion h,
      fun pnt r out _ h => Option.noConfusion h,
      fun r out _ h => Option.noConfusion h,
      fun r out _ h => Option.noConfusion h,
      fun r out _ h => Option.noConfusion h⟩
  | succ fuel ih =>
    obtain ⟨ihE, ihO, ihOL, ihB, ihBL, ihBE, ihP, ihA, ihAL, ihI⟩ := ih
    refine ⟨?_, ?_, ?_, ?_, ?_, ?_, ?_, ?_, ?_, ?_⟩
    · -- read_element
      intro r out pre h
      simp only [read_element] at h
      split at h
      · rename_i ctoks e2 cst heq
        obtain rfl := Option.some.inj h
        exact ⟨fun hnone => Option.noConfusion hnone,
          fun hDe => absurd (Option.some.inj hDe) (errD_cwR_eq heq)⟩
      · rename_i ctoks cst heq
        have hcw := cwR_eq_state heq
        split at h
        · obtain rfl := Option.some.inj h
          exact ⟨fun hnone => Option.noConfusion hnone,
            fun hDe => absurd (Option.some.inj hDe) (by decide)⟩
        · rename_i next hpk
          split at h
          · obtain ⟨b, hb, rfl⟩ := prepend_eq_some h
            obtain ⟨hS, hD⟩ := ihO cst b
              (by rw [hcw.1, hcw.2]; exact pre) hb
            constructor
            · intro hnone
              obtain ⟨ho, hd⟩ := hS hnone
              exact ⟨ho.trans hcw.2, hd.trans hcw.1⟩
            · intro hDe
              obtain ⟨hd, hl⟩ := hD hDe
              exact ⟨hd.trans (by rw [hcw.2]), lastStart_append hl⟩
          · split at h
            · obtain ⟨b, hb, rfl⟩ := prepend_eq_some h
              obtain ⟨hS, hD⟩ := ihA cst b
                (by rw [hcw.1, hcw.2]; exact pre) hb
              constructor
              · intro hnone
                obtain ⟨ho, hd⟩ := hS hnone
                exact ⟨ho.trans hcw.2, hd.trans hcw.1⟩
              · intro hDe
                obtain ⟨hd, hl⟩ := hD hDe
                exact ⟨hd.trans (by rw [hcw.2]), lastStart_append hl⟩
            · split at h
              · rename_i e2 s1 hpe
                obtain rfl := Option.some.inj h
                exact ⟨fun hnone => Option.noConfusion hnone,
                  fun hDe => absurd (Option.some.inj hDe)
                    (errD_read_primitive_element hpe)⟩
              · rename_i tok s1 hpe
                obtain ⟨b, hb, rfl⟩ := prepend_eq_some h
                obtain ⟨hS, hD⟩ := ihBE tok _ b
                  (by show cst.depth ≤ cst.options.max_depth
                      rw [hcw.1, hcw.2]; exact pre) hb
                constructor
                · intro hnone
                  obtain ⟨ho, hd⟩ := hS hnone
                  have ho2 : b.st.options = cst.options := ho
                  have hd2 : b.st.depth = cst.depth := hd
                  exact ⟨ho2.trans hcw.2, hd2.trans hcw.1⟩
                · intro hDe
                  obtain ⟨hd, hl⟩ := hD hDe
                  have hd2 : b.st.depth = cst.options.max_depth + 1 := hd
                  exact ⟨hd2.trans (by rw [hcw.2]), lastStart_append hl⟩
    · -- read_object
      intro r out pre h
      simp only [read_object] at h
      split at h
      · exact ihB none r out pre h
      · rename_i s1 heq
        split at h
        · rename_i hcond
          obtain rfl := Option.some.inj h
          constructor
          · intro hnone; exact Option.noConfusion hnone
          · intro hDe
            have hc2 : r.options.max_depth < r.depth + 1 := hcond
            refine ⟨?_, ⟨_, rfl, Or.inl rfl⟩⟩
            show r.depth + 1 = r.options.max_depth + 1
            omega
        · rename_i hcond
          have hc2 : ¬ (r.options.max_depth < r.depth + 1) := hcond
          obtain ⟨b, hb, rfl⟩ := prepend_eq_some h
          obtain ⟨hS, hD⟩ := ihOL _ b
            (by show r.depth + 1 ≤ r.options.max_depth
                omega) hb
          constructor
          · intro hnone
            obtain ⟨ho, hd⟩ := hS hnone
            have ho2 : b.st.options = r.options := ho
            have hd2 : b.st.depth = r.depth + 1 - 1 := hd
            refine ⟨ho2, ?_⟩
            show b.st.depth = r.depth
            omega
          · intro hDe
            obtain ⟨hd, hl⟩ := hD hDe
            have hd2 : b.st.depth = r.options.max_depth + 1 := hd
            exact ⟨hd2, lastStart_append hl⟩
    · -- read_object_loop
      intro r out pre h
      simp only [read_object_loop] at h
      split at h
      · rename_i ctoks e2 cst heq
        obtain rfl := Option.some.inj h
        exact ⟨fun hnone => Option.noConfusion hnone,
          fun hDe => absurd (Option.some.inj hDe) (errD_cwR_eq heq)⟩
      · rename_i ctoks cst heq
        have hcw := cwR_eq_state heq
        split at h
        · split at h
          · obtain rfl := Option.some.inj h
            constructor
            · intro hnone
              refine ⟨?_, ?_⟩
              · show cst.options = r.options
                exact hcw.2
              · show cst.depth - 1 = r.depth - 1
                rw [hcw.1]
            · intro hDe; exact Option.noConfusion hDe
          · obtain rfl := Option.some.inj h
            exact ⟨fun hnone => Option.noConfusion hnone,
              fun hDe => absurd (Option.some.inj hDe) (by decide)⟩
        · rename_i next hpk
          split at h
          · obtain rfl := Option.some.inj h
            constructor
            · intro hnone
              refine ⟨?_, ?_⟩
              · show cst.options = r.options
                exact hcw.2
              · show cst.depth - 1 = r.depth - 1
                rw [hcw.1]
            · intro hDe; exact Option.noConfusion hDe
          · obtain ⟨b, hb, rfl⟩ := prepend_eq_some h
            rcases andThen_eq_some hb with ⟨a, e2, ha, herr, hout⟩ |
              ⟨a, b2, ha, herr, hk, hout⟩
            · subst hout
              obtain ⟨hSp, hDp⟩ := ihP none cst _
                (by rw [hcw.1, hcw.2]; exact pre) ha
              constructor
              · intro hnone
                rw [herr] at hnone
                exact Option.noConfusion hnone
              · intro hDe
                obtain ⟨hd, hl⟩ := hDp hDe
                exact ⟨hd.trans (by rw [hcw.2]), lastStart_append hl⟩
            · subst hout
              obtain ⟨hSp, hDp⟩ := ihP none cst a
                (by rw [hcw.1, hcw.2]; exact pre) ha
              obtain ⟨hoa, hda⟩ := hSp herr
              obtain ⟨hS, hD⟩ := ihOL a.st b2
                (by rw [hda, hoa, hcw.1, hcw.2]; exact pre) hk
              constructor
              · intro hnone
                obtain ⟨ho, hd⟩ := hS hnone
                refine ⟨ho.trans (hoa.trans hcw.2), ?_⟩
                show b2.st.depth = r.depth - 1
                rw [hd, hda, hcw.1]
              · intro hDe
                obtain ⟨hd, hl⟩ := hD hDe
                refine ⟨?_, lastStart_append (lastStart_append hl)⟩
                show b2.st.depth = r.options.max_depth + 1
                rw [hd, hoa, hcw.2]
    · -- read_braceless_object
      intro pnt r out pre h
      simp only [read_braceless_object] at h
      split at h
      · rename_i hcond
        obtain rfl := Option.some.inj h
        constructor
        · intro hnone; exact Option.noConfusion hnone
        · intro hDe
          have hc2 : r.options.max_depth < r.depth + 1 := hcond
          refine ⟨?_, ⟨_, rfl, Or.inl rfl⟩⟩
          show r.depth + 1 = r.options.max_depth + 1
          omega
      · rename_i hcond
        have hc2 : ¬ (r.options.max_depth < r.depth + 1) := hcond
        split at h
        · rename_i ts
          obtain ⟨b, hb, rfl⟩ := prepend_eq_some h
          rcases andThen_eq_some hb with ⟨a, e2, ha, herr, hout⟩ |
            ⟨a, b2, ha, herr, hk, hout⟩
          · subst hout
            obtain ⟨hSp, hDp⟩ := ihP (some ts) _ _
              (by show r.depth + 1 ≤ r.options.max_depth
                  omega) ha
            constructor
            · intro hnone
              rw [herr] at hnone
              exact Option.noConfusion hnone
            · intro hDe
              obtain ⟨hd, hl⟩ := hDp hDe
              exact ⟨hd, lastStart_append hl⟩
          · subst hout
            obtain ⟨hSp, hDp⟩ := ihP (some ts) _ a
              (by show r.depth + 1 ≤ r.options.max_depth
                  omega) ha
            obtain ⟨hoa, hda⟩ := hSp herr
            have hoa2 : a.st.options = r.options := hoa
            have hda2 : a.st.depth = r.depth + 1 := hda
            obtain ⟨hS, hD⟩ := ihBL a.st b2
              (by rw [hda2, hoa2]; omega) hk
            constructor
            · intro hnone
              obtain ⟨ho, hd⟩ := hS hnone
              refine ⟨ho.trans hoa2, ?_⟩
              show b2.st.depth = r.depth
              rw [hd, hda2]
              omega
            · intro hDe
              obtain ⟨hd, hl⟩ := hD hDe
              refine ⟨?_, lastStart_append (lastStart_append hl)⟩
              show b2.st.depth = r.options.max_depth + 1
              rw [hd, hoa2]
        · obtain ⟨b, hb, rfl⟩ := prepend_eq_some h
          obtain ⟨hS, hD⟩ := ihBL _ b
            (by show r.depth + 1 ≤ r.options.max_depth
                omega) hb
          constructor
          · intro hnone
            obtain ⟨ho, hd⟩ := hS hnone
            have ho2 : b.st.options = r.options := ho
            have hd2 : b.st.depth = r.depth + 1 - 1 := hd
            refine ⟨ho2, ?_⟩
            show b.st.depth = r.depth
            omega
          · intro hDe
            obtain ⟨hd, hl⟩ := hD hDe
            have hd2 : b.st.depth = r.options.max_depth + 1 := hd
            exact ⟨hd2, lastStart_append hl⟩
    · -- read_braceless_object_loop
      intro r out pre h
      simp only [read_braceless_object_loop] at h
      split at h
      · rename_i ctoks e2 cst heq
        obtain rfl := Option.some.inj h
        exact ⟨fun hnone => Option.noConfusion hnone,
          fun hDe => absurd (Option.some.inj hDe) (errD_cwR_eq heq)⟩
      · rename_i ctoks cst heq
        have hcw := cwR_eq_state heq
        split at h
        · obtain rfl := Option.some.inj h
          constructor
          · intro hnone
            refine ⟨?_, ?_⟩
            · show cst.options = r.options
              exact hcw.2
            · show cst.depth - 1 = r.depth - 1
              rw [hcw.1]
          · intro hDe; exact Option.noConfusion hDe
        · obtain ⟨b, hb, rfl⟩ := prepend_eq_some h
          rcases andThen_eq_some hb with ⟨a, e2, ha, herr, hout⟩ |
            ⟨a, b2, ha, herr, hk, hout⟩
          · subst hout
            obtain ⟨hSp, hDp⟩ := ihP none cst _
              (by rw [hcw.1, hcw.2]; exact pre) ha
            constructor
            · intro hnone
              rw [herr] at hnone
              exact Option.noConfusion hnone
            · intro hDe
              obtain ⟨hd, hl⟩ := hDp hDe
              exact ⟨hd.trans (by rw [hcw.2]), lastStart_append hl⟩
          · subst hout
            obtain ⟨hSp, hDp⟩ := ihP none cst a
              (by rw [hcw.1, hcw.2]; exact pre) ha
            obtain ⟨hoa, hda⟩ := hSp herr
            obtain ⟨hS, hD⟩ := ihBL a.st b2
              (by rw [hda, hoa, hcw.1, hcw.2]; exact pre) hk
            constructor
            · intro hnone
              obtain ⟨ho, hd⟩ := hS hnone
              refine ⟨ho.trans (hoa.trans hcw.2), ?_⟩
              show b2.st.depth = r.depth - 1
              rw [hd, hda, hcw.1]
            · intro hDe
              obtain ⟨hd, hl⟩ := hD hDe
              refine ⟨?_, lastStart_append (lastStart_append hl)⟩
              show b2.st.depth = r.options.max_depth + 1
              rw [hd, hoa, hcw.2]
    · -- read_braceless_object_or_end_of_primitive
      intro tok r out pre h
      simp only [read_braceless_object_or_end_of_primitive] at h
      split at h
      · rename_i ctoks e2 cst heq
        obtain rfl := Option.some.inj h
        exact ⟨fun hnone => Option.noConfusion hnone,
          fun hDe => absurd (Option.some.inj hDe) (errD_cwR_eq heq)⟩
      · rename_i ctoks cst heq
        have hcw := cwR_eq_state heq
        split at h
        · obtain rfl := Option.some.inj h
          constructor
          · intro hnone
            exact ⟨hcw.2, hcw.1⟩
          · intro hDe; exact Option.noConfusion hDe
        · rename_i s1 hro
          obtain ⟨hS, hD⟩ := ihB _ _ out
            (by show cst.depth ≤ cst.options.max_depth
                rw [hcw.1, hcw.2]; exact pre) h
          constructor
          · intro hnone
            obtain ⟨ho, hd⟩ := hS hnone
            have ho2 : out.st.options = cst.options := ho
            have hd2 : out.st.depth = cst.depth := hd
            exact ⟨ho2.trans hcw.2, hd2.trans hcw.1⟩
          · intro hDe
            obtain ⟨hd, hl⟩ := hD hDe
            have hd2 : out.st.depth = cst.options.max_depth + 1 := hd
            exact ⟨hd2.trans (by rw [hcw.2]), hl⟩
    · -- read_property
      intro pnt r out pre h
      cases pnt with
      | some ts =>
        simp only [read_property] at h
        obtain ⟨b, hb, rfl⟩ := prepend_eq_some h
        split at hb
        · rename_i c1 e2 c1st hcw1
          obtain rfl := Option.some.inj hb
          exact ⟨fun hnone => Option.noConfusion hnone,
            fun hDe => absurd (Option.some.inj hDe) (errD_cwR_eq hcw1)⟩
        · rename_i c1 c1st hcw1
          have hcwa := cwR_eq_state hcw1
          obtain ⟨b2, hb2, rfl⟩ := prepend_eq_some hb
          rcases andThen_eq_some hb2 with ⟨a, e2, ha, herr, hout⟩ |
            ⟨a, b3, ha, herr, hk, hout⟩
          · subst hout
            obtain ⟨hSe, hDe2⟩ := ihE c1st _
              (by rw [hcwa.1, hcwa.2]; exact pre) ha
            constructor
            · intro hnone
              rw [herr] at hnone
              exact Option.noConfusion hnone
            · intro hDd
              obtain ⟨hd, hl⟩ := hDe2 hDd
              exact ⟨hd.trans (by rw [hcwa.2]),
                lastStart_append (lastStart_append hl)⟩
          · subst hout
            obtain ⟨hSe, hDe2⟩ := ihE c1st a
              (by rw [hcwa.1, hcwa.2]; exact pre) ha
            obtain ⟨hoa, hda⟩ := hSe herr
            split at hk
            · rename_i c2 e2 c2st hcw2
              obtain rfl := Option.some.inj hk
              exact ⟨fun hnone => Option.noConfusion hnone,
                fun hDe => absurd (Option.some.inj hDe) (errD_cwR_eq hcw2)⟩
            · rename_i c2 c2st hcw2
              have hcwb := cwR_eq_state hcw2
              obtain rfl := Option.some.inj hk
              constructor
              · intro hnone
                refine ⟨?_, ?_⟩
                · show c2st.options = r.options
                  rw [hcwb.2, hoa, hcwa.2]
                · show c2st.depth = r.depth
                  rw [hcwb.1, hda, hcwa.1]
              · intro hDd; exact Option.noConfusion hDd
      | none =>
        simp only [read_property] at h
        split at h
        · rename_i ftoks e2 fst heq
          obtain rfl := Option.some.inj h
          have h2 := liftScan_err r (read_property_name r.options r.source)
          rw [heq] at h2
          have h3 : (read_property_name r.options r.source).err = some e2 :=
            h2.symm
          exact ⟨fun hnone => Option.noConfusion hnone,
            fun hDe => absurd (Option.some.inj hDe)
              (errD_read_property_name h3)⟩
        · rename_i ftoks fst heq
          have hst := liftScan_st r (read_property_name r.options r.source)
          rw [heq] at hst
          have hst2 : fst = { r with
              source := (read_property_name r.options r.source).src } := hst
          have hfd : fst.depth = r.depth := by rw [hst2]
          have hfo : fst.options = r.options := by rw [hst2]
          obtain ⟨b, hb, rfl⟩ := prepend_eq_some h
          split at hb
          · rename_i c1 e2 c1st hcw1
            obtain rfl := Option.some.inj hb
            exact ⟨fun hnone => Option.noConfusion hnone,
              fun hDe => absurd (Option.some.inj hDe) (errD_cwR_eq hcw1)⟩
          · rename_i c1 c1st hcw1
            have hcwa := cwR_eq_state hcw1
            obtain ⟨b2, hb2, rfl⟩ := prepend_eq_some hb
            rcases andThen_eq_some hb2 with ⟨a, e2, ha, herr, hout⟩ |
              ⟨a, b3, ha, herr, hk, hout⟩
            · subst hout
              obtain ⟨hSe, hDe2⟩ := ihE c1st _
                (by rw [hcwa.1, hcwa.2, hfd, hfo]; exact pre) ha
              constructor
              · intro hnone
                rw [herr] at hnone
                exact Option.noConfusion hnone
              · intro hDd
                obtain ⟨hd, hl⟩ := hDe2 hDd
                refine ⟨?_, lastStart_append (lastStart_append hl)⟩
                exact hd.trans (by rw [hcwa.2, hfo])
            · subst hout
              obtain ⟨hSe, hDe2⟩ := ihE c1st a
                (by rw [hcwa.1, hcwa.2, hfd, hfo]; exact pre) ha
              obtain ⟨hoa, hda⟩ := hSe herr
              split at hk
              · rename_i c2 e2 c2st hcw2
                obtain rfl := Option.some.inj hk
                exact ⟨fun hnone => Option.noConfusion hnone,
                  fun hDe => absurd (Option.some.inj hDe) (errD_cwR_eq hcw2)⟩
              · rename_i c2 c2st hcw2
                have hcwb := cwR_eq_state hcw2
                obtain rfl := Option.some.inj hk
                constructor
                · intro hnone
                  refine ⟨?_, ?_⟩
                  · show c2st.options = r.options
                    rw [hcwb.2, hoa, hcwa.2, hfo]
                  · show c2st.depth = r.depth
                    rw [hcwb.1, hda, hcwa.1, hfd]
                · intro hDd; exact Option.noConfusion hDd
    · -- read_array
      intro r out pre h
      simp only [read_array] at h
      split at h
      · obtain rfl := Option.some.inj h
        exact ⟨fun hnone => Option.noConfusion hnone,
          fun hDe => absurd (Option.some.inj hDe) (by decide)⟩
      · rename_i s1 heq
        split at h
        · rename_i hcond
          obtain rfl := Option.some.inj h
          constructor
          · intro hnone; exact Option.noConfusion hnone
          · intro hDe
            have hc2 : r.options.max_depth < r.depth + 1 := hcond
            refine ⟨?_, ⟨_, rfl, Or.inr rfl⟩⟩
            show r.depth + 1 = r.options.max_depth + 1
            omega
        · rename_i hcond
          have hc2 : ¬ (r.options.max_depth < r.depth + 1) := hcond
          obtain ⟨b, hb, rfl⟩ := prepend_eq_some h
          obtain ⟨hS, hD⟩ := ihAL _ b
            (by show r.depth + 1 ≤ r.options.max_depth
                omega) hb
          constructor
          · intro hnone
            obtain ⟨ho, hd⟩ := hS hnone
            have ho2 : b.st.options = r.options := ho
            have hd2 : b.st.depth = r.depth + 1 - 1 := hd
            refine ⟨ho2, ?_⟩
            show b.st.depth = r.depth
            omega
          · intro hDe
            obtain ⟨hd, hl⟩ := hD hDe
            have hd2 : b.st.depth = r.options.max_depth + 1 := hd
            exact ⟨hd2, lastStart_append hl⟩
    · -- read_array_loop
      intro r out pre h
      simp only [read_array_loop] at h
      split at h
      · rename_i ctoks e2 cst heq
        obtain rfl := Option.some.inj h
        exact ⟨fun hnone => Option.noConfusion hnone,
          fun hDe => absurd (Option.some.inj hDe) (errD_cwR_eq heq)⟩
      · rename_i ctoks cst heq
        have hcw := cwR_eq_state heq
        split at h
        · split at h
          · obtain rfl := Option.some.inj h
            constructor
            · intro hnone
              refine ⟨?_, ?_⟩
              · show cst.options = r.options
                exact hcw.2
              · show cst.depth - 1 = r.depth - 1
                rw [hcw.1]
            · intro hDe; exact Option.noConfusion hDe
          · obtain rfl := Option.some.inj h
            exact ⟨fun hnone => Option.noConfusion hnone,
              fun hDe => absurd (Option.some.inj hDe) (by decide)⟩
        · rename_i next hpk
          split at h
          · obtain rfl := Option.some.inj h
            constructor
            · intro hnone
              refine ⟨?_, ?_⟩
              · show cst.options = r.options
                exact hcw.2
              · show cst.depth - 1 = r.depth - 1
                rw [hcw.1]
            · intro hDe; exact Option.noConfusion hDe
          · obtain ⟨b, hb, rfl⟩ := prepend_eq_some h
            rcases andThen_eq_some hb with ⟨a, e2, ha, herr, hout⟩ |
              ⟨a, b2, ha, herr, hk, hout⟩
            · subst hout
              obtain ⟨hSp, hDp⟩ := ihI cst _
                (by rw [hcw.1, hcw.2]; exact pre) ha
              constructor
              · intro hnone
                rw [herr] at hnone
                exact Option.noConfusion hnone
              · intro hDe
                obtain ⟨hd, hl⟩ := hDp hDe
                exact ⟨hd.trans (by rw [hcw.2]), lastStart_append hl⟩
            · subst hout
              obtain ⟨hSp, hDp⟩ := ihI cst a
                (by rw [hcw.1, hcw.2]; exact pre) ha
              obtain ⟨hoa, hda⟩ := hSp herr
              obtain ⟨hS, hD⟩ := ihAL a.st b2
                (by rw [hda, hoa, hcw.1, hcw.2]; exact pre) hk
              constructor
              · intro hnone
                obtain ⟨ho, hd⟩ := hS hnone
                refine ⟨ho.trans (hoa.trans hcw.2), ?_⟩
                show b2.st.depth = r.depth - 1
                rw [hd, hda, hcw.1]
              · intro hDe
                obtain ⟨hd, hl⟩ := hD hDe
                refine ⟨?_, lastStart_append (lastStart_append hl)⟩
                show b2.st.depth = r.options.max_depth + 1
                rw [hd, hoa, hcw.2]
    · -- read_item
      intro r out pre h
      simp only [read_item] at h
      rcases andThen_eq_some h with ⟨a, e2, ha, herr, hout⟩ |
        ⟨a, b2, ha, herr, hk, hout⟩
      · subst hout
        obtain ⟨hS, hD⟩ := ihE r _ pre ha
        constructor
        · intro hnone
          rw [herr] at hnone
          exact Option.noConfusion hnone
        · intro hDe
          exact hD hDe
      · subst hout
        obtain ⟨hS, hD⟩ := ihE r a pre ha
        obtain ⟨hoa, hda⟩ := hS herr
        split at hk
        · rename_i c2 e2 c2st hcw2
          obtain rfl := Option.some.inj hk
          exact ⟨fun hnone => Option.noConfusion hnone,
            fun hDe => absurd (Option.some.inj hDe) (errD_cwR_eq hcw2)⟩
        · rename_i c2 c2st hcw2
          have hcwb := cwR_eq_state hcw2
          obtain rfl := Option.some.inj hk
          constructor
          · intro hnone
            refine ⟨?_, ?_⟩
            · show c2st.options = r.options
              rw [hcwb.2, hoa]
            · show c2st.depth = r.depth
              rw [hcwb.1, hda]
          · intro hDe; exact Option.noConfusion hDe

/-- C10 counterexample: with a negative `max_depth` (the field is a signed
`i32`, so `-1` is representable), the depth after the "Exceeded max depth"
error is NOT `max_depth + 1`. On the input `[` with `max_depth = -1`, the
error fires at the very first container open: the StartArray token is emitted
first, and the reader is left at depth 1, while `max_depth + 1 = 0`. -/
theorem C10_counterexample_negative_max_depth :
    (read_element 100
        (JsonhReader.from_str (("[").toList) negative_depth_options)).map
      (fun out => (out.toks.map (fun e => e.tok.json_type), out.err,
        out.st.depth)) =
      some ([.StartArray], some "Exceeded max depth", 1) ∧
    negative_depth_options.max_depth + 1 = 0 := by
  constructor
  · simp
  · decide

/-- C10 (amended): for any reader whose depth does not exceed its
`max_depth` (in particular a fresh reader with `0 ≤ max_depth`; refuted for
negative `max_depth` by the counterexample), whenever `read_element` ends in
the "Exceeded max depth" error, the reader's depth field is exactly
`max_depth + 1` (the increment is not rolled back), and the token stream
already ends in the corresponding StartObject or StartArray token, which was
therefore delivered to the consumer before the error. -/
theorem C10_amended_depth_error_state :
    ∀ (fuel : Nat) (r : JsonhReader) (out : Out),
      r.depth ≤ r.options.max_depth →
      read_element fuel r = some out →
      out.err = some "Exceeded max depth" →
      out.st.depth = r.options.max_depth + 1 ∧
      ∃ e, out.toks.getLast? = some e ∧
        (e.tok.json_type = .StartObject ∨ e.tok.json_type = .StartArray) :=
  fun fuel r out hpre h hD => ((depth_all fuel).1 r out hpre h).2 hD

/-- C10 witness: the amended theorem applied to the concrete run of
`read_element` on `[[` with `max_depth = 1`: the second StartArray overflows,
the final depth is `2 = max_depth + 1`, and the stream ends in that
StartArray. -/
theorem C10_amended_witness :
    (⟨[], shallow_depth_options, 0, 2⟩ : JsonhReader).depth =
      shallow_depth_options.max_depth + 1 ∧
    ∃ e, ([⟨JsonhToken.new_empty .StartArray, false, 1⟩,
      ⟨JsonhToken.new_empty .StartArray, false, 0⟩] :
        List Emitted).getLast? = some e ∧
      (e.tok.json_type = .StartObject ∨ e.tok.json_type = .StartArray) :=
  C10_amended_depth_error_state 10
    (JsonhReader.from_str (("[[").toList) shallow_depth_options)
    ⟨[⟨JsonhToken.new_empty .StartArray, false, 1⟩,
      ⟨JsonhToken.new_empty .StartArray, false, 0⟩],
     some "Exceeded max depth",
     ⟨[], shallow_depth_options, 0, 2⟩⟩
    (by decide) (by simp) rfl

end Jsonh
